import Mathlib

/-!
Shallow embedding of the rebuild (reconciliation) pipeline of the website
repository, and proofs about its specification claims.

Sources embedded:
 - src/main.rs             (`build`)
 - src/component/photo.rs  (`Photo::setup/new/by_path/by_id/list/mark/delete/unmark_all/delete_unmarked`)
 - src/component/post.rs   (`PostMetadata`, `Post::new/set_tags/get_tags/delete_all`)
 - src/component/asset.rs  (`Asset::new/delete_all`)
 - src/component/file.rs   (`File::new/delete_all`)
 - src/component/user.rs   (`User::new/delete_all/key_hash`)

Modelling conventions:
 - machine integers (u64 results of `DefaultHasher::finish` and
   `rand::random::<u64>`) are `Nat` reduced `% 2 ^ 64` where the code
   truncates; `i64` timestamps are `Int`;
 - raw bytes are `List Nat`;
 - the external image codec (`image` crate decode / resize / JPEG encode),
   `std::hash::DefaultHasher` and the `rand` RNG are abstract functions in
   an `Env` record; the RNG is a stream indexed by a draw counter that the
   pipeline threads through;
 - `f32` arithmetic in the preview-size computation (photo.rs:88-95) is
   modelled exactly over `ℚ`; the `as u32` cast of a nonnegative float
   truncates toward zero, i.e. is a floor (and saturates at 0 below zero),
   modelled by `natFloor`;
 - the SQLite tables are lists of typed rows in insertion order; the
   declared `ON DELETE CASCADE` foreign keys (photo.rs:33-34, post.rs:65,
   asset.rs:21-22) and the UNIQUE / PRIMARY KEY constraints are part of the
   modelled semantics; `INTEGER PRIMARY KEY` auto-assignment is
   max(existing id)+1 (SQLite rowid rule);
 - a panicking `.expect` on a per-item failure and a propagated `?` both
   abort the rebuild; they are modelled as `Except.error`;
 - filesystem reads are pre-resolved into a `Tree` value: a post directory
   whose content or metadata file fails to read/parse carries `none`;
   an absent optional assets/photos subdirectory is the empty list.
-/

deriving instance DecidableEq for Except

namespace Website

/-- One decoded image of the external `image` crate, abstracted to its
dimensions plus an opaque pixel content token. -/
structure Image where
  width : Nat
  height : Nat
  content : Nat
deriving DecidableEq, Repr

/-- Resampling filters of `image::imageops::FilterType`. -/
inductive FilterType where
  | nearest
  | triangle
  | catmullRom
  | gaussian
  | lanczos3
deriving DecidableEq, Repr

/-- External capabilities used by the pipeline: `DefaultHasher`, the `rand`
stream, and the `image` codec. All are deterministic functions, matching the
spec's assumption that the encoder is deterministic. -/
structure Env where
  hashString : String → Nat
  rand : Nat → Nat
  decode : List Nat → Option Image
  resize : Image → Nat → Nat → FilterType → Image
  encodeJpeg : Image → Nat → List Nat

/-- One entry of the configuration's user list (`config.users`, consumed in
main.rs:41-43 as `user.key` / `user.group`). -/
structure UserEntry where
  key : String
  group : String
deriving DecidableEq, Repr

/-- The configuration fields the rebuild pipeline consumes (config.rs plus
the `users` list read by main.rs). Filesystem path fields are elided because
the source tree is handed to the model pre-resolved. -/
structure Config where
  photo_max_preview_size : Nat
  photo_quality : Nat
  users : List UserEntry
deriving DecidableEq, Repr

/-- Lower-case hexadecimal digit for a value below 16. -/
def hexChar (n : Nat) : Char :=
  if n < 10 then Char.ofNat (48 + n) else Char.ofNat (87 + n)

/-- Rust's `format!("{:016x}", v)` for a `u64` value: exactly 16 lower-case
hexadecimal digits, most significant first. -/
def format016x (n : Nat) : String :=
  String.mk ((List.range 16).map (fun i => hexChar (n / 16 ^ (15 - i) % 16)))

/-- Photo id derivation (photo.rs:115-117): `DefaultHasher` over the source
path string, formatted as 16 hex digits. A pure function of the path. -/
def deriveId (env : Env) (path : String) : String :=
  format016x (env.hashString path % 2 ^ 64)

/-- Post id generation (post.rs:92-93): `rand::random::<u64>()` formatted as
16 hex digits; `n` is the position in the random stream. -/
def genPostId (env : Env) (n : Nat) : String :=
  format016x (env.rand n % 2 ^ 64)

/-- `User::key_hash` (user.rs:78-82): `DefaultHasher` over the key,
formatted as 16 hex digits. -/
def keyHash (env : Env) (key : String) : String :=
  format016x (env.hashString key % 2 ^ 64)

/-- Floor of a rational to a natural number, saturating at 0 for negative
input: the behaviour of Rust's `as u32` cast on a (nonnegative) `f32`. -/
def natFloor (q : ℚ) : Nat :=
  q.num.toNat / q.den

/-- The scale factor of photo.rs:88-91:
`min(maxSize / width, maxSize / height)` over exact rationals. -/
def smallScale (maxSize w h : Nat) : ℚ :=
  min ((maxSize : ℚ) / (w : ℚ)) ((maxSize : ℚ) / (h : ℚ))

/-- The image transform of `Photo::new` (photo.rs:81-111): decode, resize to
the truncated scaled dimensions with Lanczos3, and JPEG-encode both the
original and the resized image at the configured quality. Returns
`(large, small)` rendition bytes, or `none` when decoding fails. -/
def photoTransform (env : Env) (cfg : Config) (bytes : List Nat) :
    Option (List Nat × List Nat) :=
  match env.decode bytes with
  | none => none
  | some img =>
    let scale := smallScale cfg.photo_max_preview_size img.width img.height
    let smallImg := env.resize img (natFloor ((img.width : ℚ) * scale))
      (natFloor ((img.height : ℚ) * scale)) FilterType.lanczos3
    some (env.encodeJpeg img cfg.photo_quality,
      env.encodeJpeg smallImg cfg.photo_quality)

/-- A row of the `photos` table (photo.rs:17-44). -/
structure PhotoRow where
  id : String
  mark : Bool
  is_private : Bool
  source_path : String
  source_time : Int
  image_large_jpg : List Nat
  image_small_jpg : List Nat
deriving DecidableEq, Repr

/-- A row of the `posts` table (post.rs:48-70). -/
structure PostRow where
  id : String
  title : String
  description : Option String
  date : String
  permalink : Option String
  source : String
deriving DecidableEq, Repr

/-- A row of the `posts_tags` table (post.rs:62-66). -/
structure TagRow where
  post_id : String
  tag : String
deriving DecidableEq, Repr

/-- A row of the `posts_photos` association table (photo.rs:30-35). -/
structure PostPhotoRow where
  post_id : String
  photo_id : String
deriving DecidableEq, Repr

/-- A row of the `posts_assets` association table (asset.rs:18-23). -/
structure PostAssetRow where
  post_id : String
  asset_id : Int
deriving DecidableEq, Repr

/-- A row of the `styles` table holding assets (asset.rs:9-32). -/
structure AssetRow where
  id : Int
  name : String
  data : List Nat
deriving DecidableEq, Repr

/-- A row of the `files` table (file.rs:11-29). -/
structure FileRow where
  id : Int
  name : String
  path : String
  data : List Nat
deriving DecidableEq, Repr

/-- A row of the `users` table (user.rs:11-23). -/
structure UserRow where
  key_hash : String
  group_name : String
deriving DecidableEq, Repr

/-- The whole relational store, one list of rows per table, in insertion
order. -/
structure DB where
  posts : List PostRow
  tags : List TagRow
  photos : List PhotoRow
  assets : List AssetRow
  files : List FileRow
  postsPhotos : List PostPhotoRow
  postsAssets : List PostAssetRow
  users : List UserRow
deriving DecidableEq, Repr

/-- Errors of the pipeline, the taxonomy of error.rs / component/error.rs as
the rebuild observes it: an unreadable file, an unparseable or undecodable
input, or a database constraint violation. Both a propagated `?` and a
panicking `.expect` abort the rebuild and are represented as errors. -/
inductive BuildError where
  | ioError
  | decodeError
  | storeError
deriving DecidableEq, Repr

/-- `Photo::by_path` (photo.rs:154-169): the first row whose `source_path`
matches. -/
def rowAt (photos : List PhotoRow) (path : String) : Option PhotoRow :=
  photos.find? (fun r => r.source_path == path)

/-- `Photo::mark` (photo.rs:236-242): `UPDATE photos SET mark = TRUE WHERE
id = ?`. -/
def markPhoto (db : DB) (id : String) : DB :=
  let photos' := db.photos.map (fun r => if r.id == id then { r with mark := true } else r)
  { db with photos := photos' }

/-- `Photo::delete` (photo.rs:244-250): `DELETE FROM photos WHERE id = ?`,
with the declared `ON DELETE CASCADE` removing the matching `posts_photos`
rows (photo.rs:34). -/
def deletePhotoById (db : DB) (id : String) : DB :=
  { db with photos := db.photos.filter (fun r => r.id != id),
            postsPhotos := db.postsPhotos.filter (fun a => a.photo_id != id) }

/-- `Photo::unmark_all` (photo.rs:252-257): `UPDATE photos SET mark =
FALSE`. -/
def unmarkAllPhotos (db : DB) : DB :=
  let photos' := db.photos.map (fun r => { r with mark := false })
  { db with photos := photos' }

/-- `Photo::delete_unmarked` (photo.rs:259-264): `DELETE FROM photos WHERE
mark = FALSE`, cascading to `posts_photos` rows of the deleted photos. -/
def deleteUnmarkedPhotos (db : DB) : DB :=
  let dead := db.photos.filter (fun r => !r.mark)
  let assocs' := db.postsPhotos.filter (fun a => dead.all (fun r => r.id != a.photo_id))
  { db with photos := db.photos.filter (fun r => r.mark), postsPhotos := assocs' }

/-- `Post::delete_all` (post.rs:186-189): `DELETE FROM posts`, cascading to
`posts_tags` (post.rs:65), `posts_photos` (photo.rs:33) and `posts_assets`
(asset.rs:21) rows of the deleted posts. -/
def deleteAllPosts (db : DB) : DB :=
  let tags' := db.tags.filter (fun t => !(db.posts.any (fun p => p.id == t.post_id)))
  let pp' := db.postsPhotos.filter (fun a => !(db.posts.any (fun p => p.id == a.post_id)))
  let pa' := db.postsAssets.filter (fun a => !(db.posts.any (fun p => p.id == a.post_id)))
  { db with posts := [], tags := tags', postsPhotos := pp', postsAssets := pa' }

/-- `File::delete_all` (file.rs:89-94). -/
def deleteAllFiles (db : DB) : DB :=
  { db with files := [] }

/-- `Asset::delete_all` (asset.rs:88-93): `DELETE FROM styles`, cascading to
`posts_assets` rows of the deleted assets (asset.rs:22). -/
def deleteAllAssets (db : DB) : DB :=
  let pa' := db.postsAssets.filter (fun a => !(db.assets.any (fun s => s.id == a.asset_id)))
  { db with assets := [], postsAssets := pa' }

/-- `User::delete_all` (user.rs:71-76). -/
def deleteAllUsers (db : DB) : DB :=
  { db with users := [] }

/-- SQLite rowid assignment for an `INTEGER PRIMARY KEY` column: one more
than the maximal existing id (1 on an empty table). -/
def nextAssetId (assets : List AssetRow) : Int :=
  assets.foldl (fun m r => max m r.id) 0 + 1

/-- Same rowid rule for the `files` table. -/
def nextFileId (files : List FileRow) : Int :=
  files.foldl (fun m r => max m r.id) 0 + 1

/-- A photo file on disk: its path string, modification time
(`metadata().modified()`, photo.rs:57-64) and raw bytes. -/
structure PhotoFile where
  path : String
  mtime : Int
  bytes : List Nat
deriving DecidableEq, Repr

/-- An asset file under a post's assets subdirectory. -/
structure AssetFile where
  name : String
  bytes : List Nat
deriving DecidableEq, Repr

/-- An entry of the two-level files tree (main.rs:45-50): the parent
category directory's last path component and the file itself. -/
structure FileEntry where
  category : String
  name : String
  bytes : List Nat
deriving DecidableEq, Repr

/-- The JSON sidecar `PostMetadata` (post.rs:4-12). -/
structure PostMetadata where
  id : Option String
  title : String
  description : Option String
  date : String
  tags : List String
  permalink : Option String
deriving DecidableEq, Repr

/-- One post directory. `content`/`metadata` are `none` when the respective
file fails to read or parse (post.rs:88-89); absent optional subdirectories
are empty lists (post.rs:131,142,153). -/
structure PostDir where
  content : Option String
  metadata : Option PostMetadata
  assets : List AssetFile
  publicPhotos : List PhotoFile
  privatePhotos : List PhotoFile
deriving DecidableEq, Repr

/-- The whole source tree the rebuild walks. -/
structure Tree where
  files : List FileEntry
  posts : List PostDir
deriving DecidableEq, Repr

/-- `Photo::new`, creation branch (photo.rs:81-137): transform the image,
derive the id from the path, and insert with `mark` defaulting to TRUE
(photo.rs:22). A duplicate PRIMARY KEY id or UNIQUE source_path violates a
constraint and panics (photo.rs:134). -/
def photoCreate (env : Env) (cfg : Config) (db : DB) (pf : PhotoFile)
    (is_private : Bool) : Except BuildError (DB × PhotoRow) :=
  match photoTransform env cfg pf.bytes with
  | none => .error .decodeError
  | some rend =>
    let id := deriveId env pf.path
    let row : PhotoRow :=
      { id := id, mark := true, is_private := is_private,
        source_path := pf.path, source_time := pf.mtime,
        image_large_jpg := rend.1, image_small_jpg := rend.2 }
    if db.photos.any (fun r => r.id == id || r.source_path == pf.path) then
      .error .storeError
    else
      .ok ({ db with photos := db.photos ++ [row] }, row)

/-- `Photo::new` (photo.rs:56-137): look up by source path; an up-to-date
row is only marked and returned as fetched (its image bytes untouched and no
transform run); an outdated row is deleted and recreated; a missing row is
created. -/
def Photo.new (env : Env) (cfg : Config) (db : DB) (pf : PhotoFile)
    (is_private : Bool) : Except BuildError (DB × PhotoRow) :=
  match rowAt db.photos pf.path with
  | some existing =>
    if pf.mtime ≤ existing.source_time then
      .ok (markPhoto db existing.id, existing)
    else
      photoCreate env cfg (deletePhotoById db existing.id) pf is_private
  | none => photoCreate env cfg db pf is_private

/-- `Asset::new` (asset.rs:34-53): unconditional insert returning the
auto-assigned id. -/
def Asset.new (db : DB) (a : AssetFile) : DB × Int :=
  let id := nextAssetId db.assets
  ({ db with assets := db.assets ++ [{ id := id, name := a.name, data := a.bytes }] }, id)

/-- `Post::set_tags` (post.rs:191-204): delete every tag row of the post,
then insert the given tags in order. -/
def Post.set_tags (db : DB) (post_id : String) (tags : List String) : DB :=
  { db with tags := db.tags.filter (fun t => t.post_id != post_id) ++
      tags.map (fun tg => { post_id := post_id, tag := tg }) }

/-- `Post::get_tags` (post.rs:206-213): `SELECT tag FROM posts_tags WHERE
post_id = ?`. -/
def Post.get_tags (db : DB) (post_id : String) : List String :=
  (db.tags.filter (fun t => t.post_id == post_id)).map (fun t => t.tag)

/-- Tag normalization (post.rs:97-101): `to_lowercase().replace(" ", "_")`,
written as a single character map (lower-casing never produces a space). -/
def normalizeTag (t : String) : String :=
  String.mk (t.data.map (fun c => if c = ' ' then '_' else c.toLower))

/-- Insert a post's asset files: for each, `Asset::new` then a
`posts_assets` association row (post.rs:131-140). -/
def insertPostAssets (db : DB) (post_id : String) : List AssetFile → DB
  | [] => db
  | a :: rest =>
    let res := Asset.new db a
    insertPostAssets
      { res.1 with postsAssets := res.1.postsAssets ++ [{ post_id := post_id, asset_id := res.2 }] }
      post_id rest

/-- Insert a post's photo files: for each, `Photo::new` then a
`posts_photos` association row with the returned photo's id
(post.rs:142-162). A photo failure aborts. -/
def insertPostPhotos (env : Env) (cfg : Config) (db : DB) (post_id : String)
    (is_private : Bool) : List PhotoFile → Except BuildError DB
  | [] => .ok db
  | pf :: rest =>
    match Photo.new env cfg db pf is_private with
    | .error e => .error e
    | .ok res =>
      insertPostPhotos env cfg
        { res.1 with postsPhotos := res.1.postsPhotos ++ [{ post_id := post_id, photo_id := res.2.id }] }
        post_id is_private rest

/-- The post row `Post::new` inserts (post.rs:108-125). -/
def newPostRow (pid : String) (meta : PostMetadata) (source : String) : PostRow :=
  { id := pid, title := meta.title, description := meta.description,
    date := meta.date, permalink := meta.permalink, source := source }

/-- The database half of `Post::new` (post.rs:108-165): insert the post row
(a duplicate id violates the PRIMARY KEY and aborts), then assets, then
public and private photos, then replace the tags with the normalized list.
`pid` is the settled metadata id. -/
def postInsertAll (env : Env) (cfg : Config) (db : DB) (pid : String)
    (meta : PostMetadata) (source : String) (p : PostDir) : Except BuildError DB :=
  if db.posts.any (fun q => q.id == pid) then
    .error .storeError
  else
    match insertPostPhotos env cfg
        (insertPostAssets { db with posts := db.posts ++ [newPostRow pid meta source] } pid p.assets)
        pid false p.publicPhotos with
    | .error e => .error e
    | .ok db3 =>
      match insertPostPhotos env cfg db3 pid true p.privatePhotos with
      | .error e => .error e
      | .ok db4 => .ok (Post.set_tags db4 pid (meta.tags.map normalizeTag))

/-- `Post::new` (post.rs:82-166). Returns the post directory as left on disk
(the sidecar write-back of a generated id happens before any database write,
post.rs:91-95, so it survives a later database failure), the advanced random
stream position, and the database outcome. -/
def Post.new (env : Env) (cfg : Config) (db : DB) (p : PostDir) (rng : Nat) :
    PostDir × Nat × Except BuildError DB :=
  match p.content with
  | none => (p, rng, .error .ioError)
  | some source =>
    match p.metadata with
    | none => (p, rng, .error .decodeError)
    | some meta =>
      match meta.id with
      | some pid => (p, rng, postInsertAll env cfg db pid meta source p)
      | none =>
        let pid := genPostId env rng
        let meta' := { meta with id := some pid }
        ({ p with metadata := some meta' }, rng + 1,
          postInsertAll env cfg db pid meta' source p)

/-- The posts pass of `build` (main.rs:52-54): process each post directory
in order; the `?` on `Post::new` propagates the first failure, aborting the
pass (directories after the failing one are left untouched). -/
def buildPosts (env : Env) (cfg : Config) :
    DB → List PostDir → Nat → List PostDir × Nat × Except BuildError DB
  | db, [], rng => ([], rng, .ok db)
  | db, p :: rest, rng =>
    match Post.new env cfg db p rng with
    | (p', rng', .error e) => (p' :: rest, rng', .error e)
    | (p', rng', .ok db1) =>
      match buildPosts env cfg db1 rest rng' with
      | (rest', rng'', out) => (p' :: rest', rng'', out)

/-- The user insertions of `build` (main.rs:41-43), factored over the users
table contents: each `User::new` (user.rs:25-43) hashes the key and inserts,
panicking on a duplicate `key_hash` PRIMARY KEY (user.rs:37). -/
def insertUsersList (env : Env) : List UserRow → List UserEntry →
    Except BuildError (List UserRow)
  | acc, [] => .ok acc
  | acc, u :: rest =>
    if acc.any (fun w => w.key_hash == keyHash env u.key) then
      .error .storeError
    else
      insertUsersList env
        (acc ++ [{ key_hash := keyHash env u.key, group_name := u.group }]) rest

/-- The files pass of `build` (main.rs:45-50), factored over the files table
contents: every entry of every category directory is inserted
unconditionally by `File::new` (file.rs:39-68), the `path` column being the
parent category directory's last component. -/
def insertFilesList : List FileRow → List FileEntry → List FileRow
  | acc, [] => acc
  | acc, f :: rest =>
    insertFilesList
      (acc ++ [{ id := nextFileId acc, name := f.name, path := f.category, data := f.bytes }]) rest

/-- `build` after the initial table clears (main.rs:41-56): insert users
(main.rs:41-43), insert files (main.rs:45-50; an independent field, written
together with the users in one record update), run the posts pass, sweep
unmarked photos. -/
def buildRest (env : Env) (cfg : Config) (tree : Tree) (db : DB) (rng : Nat) :
    Tree × Nat × Except BuildError DB :=
  match insertUsersList env db.users cfg.users with
  | .error e => (tree, rng, .error e)
  | .ok users1 =>
    match buildPosts env cfg
        { db with users := users1, files := insertFilesList db.files tree.files }
        tree.posts rng with
    | (posts', rng', .error e) => ({ tree with posts := posts' }, rng', .error e)
    | (posts', rng', .ok db3) =>
      ({ tree with posts := posts' }, rng', .ok (deleteUnmarkedPhotos db3))

/-- `build` (main.rs:25-61): clear the regenerable tables and unmark all
photos (main.rs:35-39), then users, files, posts and the sweep. Returns the
source tree as left on disk, the advanced random stream position, and the
database outcome. -/
def build (env : Env) (cfg : Config) (tree : Tree) (db : DB) (rng : Nat) :
    Tree × Nat × Except BuildError DB :=
  buildRest env cfg tree
    (deleteAllUsers (deleteAllAssets (deleteAllFiles (unmarkAllPhotos (deleteAllPosts db))))) rng

/-- The `ORDER BY posts.date DESC, photos.source_time DESC` ordering of
`Photo::list` (photo.rs:190) on joined (photo, post) rows: `a` comes no
later than `b`. -/
def photoOrd (a b : PhotoRow × PostRow) : Prop :=
  b.2.date < a.2.date ∨ (a.2.date = b.2.date ∧ b.1.source_time ≤ a.1.source_time)

instance photoOrdDecidable : DecidableRel photoOrd := by
  intro a b
  unfold photoOrd
  infer_instance

instance photoOrdTrans : IsTrans (PhotoRow × PostRow) photoOrd := by
  constructor
  intro a b c hab hbc
  rcases hab with h1 | ⟨h1, h2⟩
  · rcases hbc with h3 | ⟨h3, h4⟩
    · exact Or.inl (lt_trans h3 h1)
    · exact Or.inl (h3 ▸ h1)
  · rcases hbc with h3 | ⟨h3, h4⟩
    · exact Or.inl (h1 ▸ h3)
    · exact Or.inr ⟨h1.trans h3, le_trans h4 h2⟩

instance photoOrdTotal : IsTotal (PhotoRow × PostRow) photoOrd := by
  constructor
  intro a b
  rcases lt_trichotomy a.2.date b.2.date with h | h | h
  · exact Or.inr (Or.inl h)
  · rcases le_total b.1.source_time a.1.source_time with h2 | h2
    · exact Or.inl (Or.inr ⟨h, h2⟩)
    · exact Or.inr (Or.inr ⟨h.symm, h2⟩)
  · exact Or.inl (Or.inl h)

/-- The inner join of `Photo::list` (photo.rs:178-183): `photos JOIN
posts_photos ON photos.id = posts_photos.photo_id JOIN posts ON
posts_photos.post_id = posts.id`, one row per matching combination. -/
def photoListJoin (db : DB) : List (PhotoRow × PostRow) :=
  (db.postsPhotos.map (fun a =>
    ((db.photos.filter (fun ph => ph.id == a.photo_id)).map (fun ph =>
      (db.posts.filter (fun po => po.id == a.post_id)).map (fun po => (ph, po)))).flatten)).flatten

/-- The join of `Photo::list` after the optional
`WHERE posts_photos.post_id = ?` filter (photo.rs:186-188), sorted by
`ORDER BY posts.date DESC, photos.source_time DESC` (photo.rs:190). -/
def sortedJoin (db : DB) (post_id : Option String) : List (PhotoRow × PostRow) :=
  List.insertionSort photoOrd
    (match post_id with
     | some pid => (photoListJoin db).filter (fun x => x.2.id == pid)
     | none => photoListJoin db)

/-- The sorted join after the SQL window clauses (photo.rs:192-198):
`LIMIT l` keeps at most `l` rows and `LIMIT l OFFSET o` first skips `o`.
An `OFFSET` with no `LIMIT` clause is appended as bare `OFFSET n`, which is
invalid SQLite: the query fails and the `.expect` at photo.rs:208-211
panics instead of producing a window. -/
def photoListWindow (db : DB) (post_id : Option String) (offset limit : Option Nat) :
    Except BuildError (List (PhotoRow × PostRow)) :=
  match limit with
  | some l =>
    .ok ((match offset with
     | some o => (sortedJoin db post_id).drop o
     | none => sortedJoin db post_id).take l)
  | none =>
    match offset with
    | some _ => .error .storeError
    | none => .ok (sortedJoin db post_id)

/-- `Photo::list` (photo.rs:171-226): fetch the sorted window (panicking
when the generated SQL is invalid, photo.rs:208-211), then filter private
photos in application code unless `include_private`, returning the kept
rows and the number filtered out. -/
def Photo.list (db : DB) (include_private : Bool) (post_id : Option String)
    (offset limit : Option Nat) : Except BuildError (List PhotoRow × Nat) :=
  match photoListWindow db post_id offset limit with
  | .error e => .error e
  | .ok window =>
    .ok (((window.map (fun x => x.1)).filter (fun ph => !ph.is_private || include_private)),
      (window.map (fun x => x.1)).length -
        ((window.map (fun x => x.1)).filter
          (fun ph => !ph.is_private || include_private)).length)

/-- No two photo rows share a `source_path` (the table's UNIQUE column,
photo.rs:24). -/
def pathsNodup (photos : List PhotoRow) : Prop :=
  (photos.map (fun r => r.source_path)).Nodup

/-- No two photo rows share an `id` (the table's PRIMARY KEY,
photo.rs:21). -/
def idsNodup (photos : List PhotoRow) : Prop :=
  (photos.map (fun r => r.id)).Nodup

instance (ps : List PhotoRow) : Decidable (pathsNodup ps) := by
  unfold pathsNodup
  infer_instance

instance (ps : List PhotoRow) : Decidable (idsNodup ps) := by
  unfold idsNodup
  infer_instance

/-- Referential and key integrity of a database state, as the SQLite schema
enforces it: association and tag rows reference existing posts, and photo
keys are unique. Holds of any state this pipeline produces. -/
def DB.wf (db : DB) : Prop :=
  (∀ t ∈ db.tags, ∃ q ∈ db.posts, q.id = t.post_id) ∧
  (∀ a ∈ db.postsPhotos, ∃ q ∈ db.posts, q.id = a.post_id) ∧
  (∀ a ∈ db.postsAssets, ∃ q ∈ db.posts, q.id = a.post_id) ∧
  pathsNodup db.photos ∧ idsNodup db.photos

instance (db : DB) : Decidable db.wf := by
  unfold DB.wf pathsNodup idsNodup
  infer_instance

/-- All photo files of one post directory, public before private, each
tagged with its `is_private` flag (post.rs:142-162). -/
def PostDir.photoFiles (p : PostDir) : List (PhotoFile × Bool) :=
  p.publicPhotos.map (fun pf => (pf, false)) ++ p.privatePhotos.map (fun pf => (pf, true))

/-- All photo files a posts pass encounters, in encounter order. -/
def passPhotoFiles (ps : List PostDir) : List (PhotoFile × Bool) :=
  (ps.map PostDir.photoFiles).flatten

/-- The source paths of all photo files a posts pass encounters. -/
def passPaths (ps : List PostDir) : List String :=
  (passPhotoFiles ps).map (fun pfb => pfb.1.path)

/-- A source tree is well formed when no two of its photo files share a path
string: true of a real filesystem tree, where each photo lives at a distinct
path under its post directory. -/
def Tree.wf (tree : Tree) : Prop :=
  (passPaths tree.posts).Nodup

instance (tree : Tree) : Decidable tree.wf := by
  unfold Tree.wf
  infer_instance

/-! ### Basic facts about the identifier formatting -/

theorem format016x_length (n : Nat) : (format016x n).length = 16 := by
  simp [format016x, String.length]

theorem hexChar_isHex (k : Nat) (h : k < 16) :
    (hexChar k).isDigit ∨ ('a' ≤ hexChar k ∧ hexChar k ≤ 'f') := by
  have hall : ∀ j : Fin 16,
      (hexChar j.1).isDigit ∨ ('a' ≤ hexChar j.1 ∧ hexChar j.1 ≤ 'f') := by decide
  exact hall ⟨k, h⟩

theorem format016x_isHex (n : Nat) :
    ∀ c ∈ (format016x n).data,
      c.isDigit ∨ ('a' ≤ c ∧ c ≤ 'f') := by
  intro c hc
  simp only [format016x, String.mk, List.mem_map] at hc
  obtain ⟨i, _, rfl⟩ := hc
  exact hexChar_isHex _ (Nat.mod_lt _ (by norm_num))

/-! ### Small-rendition geometry (photo.rs:81-111) -/

theorem natFloor_le_of_le (q : ℚ) (M : Nat) (h : q ≤ (M : ℚ)) : natFloor q ≤ M := by
  unfold natFloor
  have hden : (0 : ℚ) < (q.den : ℚ) := by
    exact_mod_cast q.den_pos
  have hq : (q.num : ℚ) ≤ (M : ℚ) * (q.den : ℚ) := by
    rw [← Rat.num_div_den q, div_le_iff₀ hden] at h
    exact h
  have hnum : q.num ≤ (M : ℤ) * (q.den : ℤ) := by
    exact_mod_cast hq
  have htn : q.num.toNat ≤ M * q.den := by
    calc q.num.toNat ≤ ((M : ℤ) * (q.den : ℤ)).toNat := Int.toNat_le_toNat hnum
      _ = M * q.den := by
        rw [← Nat.cast_mul, Int.toNat_natCast]
  exact Nat.div_le_of_le_mul (by rw [Nat.mul_comm] at htn; exact htn)

theorem scaled_width_le (M w h : Nat) (hw : 0 < w) :
    (w : ℚ) * smallScale M w h ≤ (M : ℚ) := by
  have h1 : smallScale M w h ≤ (M : ℚ) / (w : ℚ) := min_le_left _ _
  have hw0 : (w : ℚ) ≠ 0 := by positivity
  calc (w : ℚ) * smallScale M w h ≤ (w : ℚ) * ((M : ℚ) / (w : ℚ)) := by
        exact mul_le_mul_of_nonneg_left h1 (by positivity)
    _ = (M : ℚ) := by
        field_simp

theorem scaled_height_le (M w h : Nat) (hh : 0 < h) :
    (h : ℚ) * smallScale M w h ≤ (M : ℚ) := by
  have h1 : smallScale M w h ≤ (M : ℚ) / (h : ℚ) := min_le_right _ _
  have hh0 : (h : ℚ) ≠ 0 := by positivity
  calc (h : ℚ) * smallScale M w h ≤ (h : ℚ) * ((M : ℚ) / (h : ℚ)) := by
        exact mul_le_mul_of_nonneg_left h1 (by positivity)
    _ = (M : ℚ) := by
        field_simp

/-- C9: for every decodable source image of width `w` and height `h`, the
small rendition is the image resampled with the Lanczos3 filter at target
dimensions `⌊w * scale⌋ × ⌊h * scale⌋` (truncating, not rounding) where
`scale = min(maxPreviewDimension / w, maxPreviewDimension / h)`, both target
dimensions are at most `maxPreviewDimension`, and both renditions are
JPEG-encoded at the same configured quality. -/
theorem small_rendition_geometry (env : Env) (cfg : Config) (bytes : List Nat)
    (img : Image) (hdec : env.decode bytes = some img)
    (hw : 0 < img.width) (hh : 0 < img.height) :
    photoTransform env cfg bytes =
      some (env.encodeJpeg img cfg.photo_quality,
        env.encodeJpeg
          (env.resize img
            (natFloor ((img.width : ℚ) *
              smallScale cfg.photo_max_preview_size img.width img.height))
            (natFloor ((img.height : ℚ) *
              smallScale cfg.photo_max_preview_size img.width img.height))
            FilterType.lanczos3)
          cfg.photo_quality) ∧
    smallScale cfg.photo_max_preview_size img.width img.height =
      min ((cfg.photo_max_preview_size : ℚ) / (img.width : ℚ))
        ((cfg.photo_max_preview_size : ℚ) / (img.height : ℚ)) ∧
    natFloor ((img.width : ℚ) *
        smallScale cfg.photo_max_preview_size img.width img.height) ≤
      cfg.photo_max_preview_size ∧
    natFloor ((img.height : ℚ) *
        smallScale cfg.photo_max_preview_size img.width img.height) ≤
      cfg.photo_max_preview_size := by
  refine ⟨?_, rfl, ?_, ?_⟩
  · simp [photoTransform, hdec]
  · exact natFloor_le_of_le _ _ (scaled_width_le _ _ _ hw)
  · exact natFloor_le_of_le _ _ (scaled_height_le _ _ _ hh)

/-- Concrete 4×2 image used by the geometry witness. -/
def imgW : Image := { width := 4, height := 2, content := 0 }

/-- Concrete environment for the geometry witness: decoding always yields
`imgW`. -/
def envW : Env :=
  { hashString := fun _ => 0,
    rand := fun _ => 0,
    decode := fun _ => some imgW,
    resize := fun _ w h _ => { width := w, height := h, content := 1 },
    encodeJpeg := fun i q => [i.width, i.height, i.content, q] }

/-- Concrete configuration for the geometry witness. -/
def cfgW : Config := { photo_max_preview_size := 2, photo_quality := 80, users := [] }

/-- Witness for C9 at the concrete 4×2 image with preview bound 2. -/
theorem small_rendition_geometry_witness :
    photoTransform envW cfgW [] =
      some (envW.encodeJpeg imgW cfgW.photo_quality,
        envW.encodeJpeg
          (envW.resize imgW
            (natFloor ((imgW.width : ℚ) *
              smallScale cfgW.photo_max_preview_size imgW.width imgW.height))
            (natFloor ((imgW.height : ℚ) *
              smallScale cfgW.photo_max_preview_size imgW.width imgW.height))
            FilterType.lanczos3)
          cfgW.photo_quality) ∧
    smallScale cfgW.photo_max_preview_size imgW.width imgW.height =
      min ((cfgW.photo_max_preview_size : ℚ) / (imgW.width : ℚ))
        ((cfgW.photo_max_preview_size : ℚ) / (imgW.height : ℚ)) ∧
    natFloor ((imgW.width : ℚ) *
        smallScale cfgW.photo_max_preview_size imgW.width imgW.height) ≤
      cfgW.photo_max_preview_size ∧
    natFloor ((imgW.height : ℚ) *
        smallScale cfgW.photo_max_preview_size imgW.width imgW.height) ≤
      cfgW.photo_max_preview_size :=
  small_rendition_geometry envW cfgW [] imgW rfl (by decide) (by decide)

/-! ### Lookup and uniqueness facts -/

theorem rowAt_some_path {ps : List PhotoRow} {p : String} {r : PhotoRow}
    (h : rowAt ps p = some r) : r.source_path = p := by
  have := List.find?_some h
  simpa using this

theorem rowAt_some_mem {ps : List PhotoRow} {p : String} {r : PhotoRow}
    (h : rowAt ps p = some r) : r ∈ ps :=
  List.mem_of_find?_eq_some h

theorem rowAt_eq_none {ps : List PhotoRow} {p : String}
    (h : rowAt ps p = none) : ∀ r ∈ ps, r.source_path ≠ p := by
  intro r hr
  have := List.find?_eq_none.mp h r hr
  simpa using this

theorem pathsNodup_unique {ps : List PhotoRow} (hN : pathsNodup ps)
    {r s : PhotoRow} (hr : r ∈ ps) (hs : s ∈ ps)
    (h : r.source_path = s.source_path) : r = s :=
  List.inj_on_of_nodup_map hN hr hs h

theorem idsNodup_unique {ps : List PhotoRow} (hN : idsNodup ps)
    {r s : PhotoRow} (hr : r ∈ ps) (hs : s ∈ ps)
    (h : r.id = s.id) : r = s :=
  List.inj_on_of_nodup_map hN hr hs h

theorem any_eq_false_forall {α : Type} {l : List α} {f : α → Bool}
    (h : l.any f = false) : ∀ x ∈ l, f x = false := by
  intro x hx
  by_contra hcon
  have : l.any f = true := List.any_eq_true.mpr ⟨x, hx, by revert hcon; cases f x <;> simp⟩
  rw [h] at this
  exact Bool.false_ne_true this

/-- The row `photoCreate` inserts. -/
def newPhotoRow (env : Env) (pf : PhotoFile) (priv : Bool)
    (rend : List Nat × List Nat) : PhotoRow :=
  { id := deriveId env pf.path, mark := true, is_private := priv,
    source_path := pf.path, source_time := pf.mtime,
    image_large_jpg := rend.1, image_small_jpg := rend.2 }

/-- Characterization of a successful `photoCreate`: the transform succeeded,
the uniqueness constraints held, and the new row was appended. -/
theorem photoCreate_ok (env : Env) (cfg : Config) (dbx : DB) (pf : PhotoFile)
    (priv : Bool) (db' : DB) (r : PhotoRow)
    (hc : photoCreate env cfg dbx pf priv = .ok (db', r)) :
    ∃ rend, photoTransform env cfg pf.bytes = some rend ∧
      r = newPhotoRow env pf priv rend ∧
      db' = { dbx with photos := dbx.photos ++ [r] } ∧
      (∀ q ∈ dbx.photos, q.id ≠ deriveId env pf.path ∧ q.source_path ≠ pf.path) := by
  unfold photoCreate at hc
  rcases htr : photoTransform env cfg pf.bytes with _ | rend <;> rw [htr] at hc
  · exact Except.noConfusion hc
  · simp only at hc
    by_cases hany : dbx.photos.any
        (fun q => q.id == deriveId env pf.path || q.source_path == pf.path) = true
    · rw [if_pos hany] at hc
      exact Except.noConfusion hc
    · rw [if_neg hany] at hc
      simp only [Except.ok.injEq, Prod.mk.injEq] at hc
      obtain ⟨hdb, hrow⟩ := hc
      refine ⟨rend, rfl, hrow.symm, ?_, ?_⟩
      · rw [← hdb, ← hrow]
      · intro q hq
        have := any_eq_false_forall (Bool.not_eq_true _ ▸ hany) q hq
        constructor
        · intro hcon
          simp [hcon] at this
        · intro hcon
          simp [hcon] at this

/-- `photoCreate` never runs when a row at the path is still present: the
inserted table keeps source paths unique. -/
theorem photoCreate_pathsNodup (env : Env) (cfg : Config) (dbx : DB)
    (pf : PhotoFile) (priv : Bool) (db' : DB) (r : PhotoRow)
    (hN : pathsNodup dbx.photos)
    (hc : photoCreate env cfg dbx pf priv = .ok (db', r)) :
    pathsNodup db'.photos := by
  obtain ⟨rend, -, hrow, hdb, hfresh⟩ := photoCreate_ok env cfg dbx pf priv db' r hc
  subst hdb
  simp only [pathsNodup, List.map_append] at *
  rw [List.nodup_append]
  refine ⟨hN, by simp, ?_⟩
  intro x hx
  simp only [List.mem_map] at hx
  obtain ⟨q, hq, rfl⟩ := hx
  simp only [List.map_cons, List.map_nil, List.mem_singleton, hrow, newPhotoRow]
  exact (hfresh q hq).2

/-- `markPhoto` changes only the mark flag: the source-path column is
untouched. -/
theorem markPhoto_map_path (db : DB) (i : String) :
    ((markPhoto db i).photos).map (fun r => r.source_path) =
      db.photos.map (fun r => r.source_path) := by
  simp only [markPhoto, List.map_map]
  refine List.map_congr_left ?_
  intro a _
  simp only [Function.comp]
  split <;> rfl

/-- C6: every photo-sync operation preserves the invariant that at most one
live Photo row exists per `source_path`: lookup is by path, an outdated row
is deleted before its replacement is inserted, and the UNIQUE constraint
guards the insert, so if the photo table has no duplicate source paths
before `Photo::new` it has none after. -/
theorem photo_path_unique_preserved (env : Env) (cfg : Config) (db : DB)
    (pf : PhotoFile) (priv : Bool) (db' : DB) (r : PhotoRow)
    (hpaths : pathsNodup db.photos)
    (h : Photo.new env cfg db pf priv = .ok (db', r)) :
    pathsNodup db'.photos := by
  unfold Photo.new at h
  split at h
  next ex heq =>
    split at h
    next htime =>
      simp only [Except.ok.injEq, Prod.mk.injEq] at h
      obtain ⟨hdb, -⟩ := h
      rw [← hdb]
      unfold pathsNodup
      rw [markPhoto_map_path]
      exact hpaths
    next htime =>
      refine photoCreate_pathsNodup env cfg _ pf priv db' r ?_ h
      unfold pathsNodup deletePhotoById
      simp only
      exact hpaths.sublist (List.Sublist.map _ (List.filter_sublist db.photos))
  next heq => exact photoCreate_pathsNodup env cfg db pf priv db' r hpaths h

/-- Witness photo path. -/
def pathW1 : String := "a/b.jpg"

/-- Witness photo file, older than the stored row of `dbW`. -/
def photoFileW1 : PhotoFile := { path := pathW1, mtime := 4, bytes := [] }

/-- Witness photo row stored at `pathW1`. -/
def photoRowW1 : PhotoRow :=
  { id := keyHash envW pathW1, mark := false, is_private := false,
    source_path := pathW1, source_time := 5,
    image_large_jpg := [1], image_small_jpg := [2] }

/-- Witness database with a single photo row, used by step-level
witnesses. -/
def dbW : DB :=
  { posts := [], tags := [], photos := [photoRowW1],
    assets := [], files := [], postsPhotos := [], postsAssets := [], users := [] }

/-- Witness for C6: `Photo::new` on the up-to-date row of `dbW` keeps
source paths unique. -/
theorem photo_path_unique_preserved_witness :
    pathsNodup (markPhoto dbW (keyHash envW pathW1)).photos :=
  photo_path_unique_preserved envW cfgW dbW photoFileW1 false
    (markPhoto dbW (keyHash envW pathW1)) photoRowW1 (by decide) (by decide)

/-- C2: photo-sync change detection. If a row with the photo's source path
exists and its stored `source_time` is at least the file's mtime, the row is
only marked and returned — for any file bytes whatsoever (no transform runs)
and with every stored column except the mark flag untouched. Otherwise the
old row is deleted (with its associations) and a fresh row is inserted whose
`source_time` is the new mtime, whose renditions are freshly computed, and
whose id — a pure function of the unchanged path — equals the old id
whenever the old row's id was derived from that same path. -/
theorem photo_sync_change_detection (env : Env) (cfg : Config) (db : DB)
    (pf : PhotoFile) (priv : Bool) (r : PhotoRow)
    (hfound : rowAt db.photos pf.path = some r)
    (hpaths : pathsNodup db.photos) :
    (pf.mtime ≤ r.source_time →
      (∀ b, Photo.new env cfg db { pf with bytes := b } priv =
        .ok (markPhoto db r.id, r)) ∧
      (markPhoto db r.id).photos =
        db.photos.map (fun x => if x.id == r.id then { x with mark := true } else x)) ∧
    (r.source_time < pf.mtime → r.id = deriveId env pf.path →
      ∀ rend, photoTransform env cfg pf.bytes = some rend →
        Photo.new env cfg db pf priv =
          .ok ({ db with
                   photos := db.photos.filter (fun x => x.id != r.id) ++
                     [newPhotoRow env pf priv rend],
                   postsPhotos := db.postsPhotos.filter (fun a => a.photo_id != r.id) },
               newPhotoRow env pf priv rend) ∧
        (newPhotoRow env pf priv rend).id = r.id ∧
        (newPhotoRow env pf priv rend).source_time = pf.mtime) := by
  constructor
  · intro htime
    constructor
    · intro b
      unfold Photo.new
      have hf2 : rowAt db.photos ({ pf with bytes := b } : PhotoFile).path = some r := hfound
      simp only [hf2]
      rw [if_pos (show ({ pf with bytes := b } : PhotoFile).mtime ≤ r.source_time from htime)]
    · rfl
  · intro htime hid rend htr
    have hrmem : r ∈ db.photos := rowAt_some_mem hfound
    have hrpath : r.source_path = pf.path := rowAt_some_path hfound
    unfold Photo.new
    simp only [hfound]
    rw [if_neg (not_le.mpr htime)]
    have hnot : ¬((deletePhotoById db r.id).photos.any
        (fun q => q.id == deriveId env pf.path || q.source_path == pf.path) = true) := by
      simp only [deletePhotoById, List.any_eq_true, not_exists]
      rintro x ⟨hxmem, hor⟩
      simp only [List.mem_filter] at hxmem
      obtain ⟨hxdb, hxbne⟩ := hxmem
      have hxid' : x.id ≠ r.id := by simpa using hxbne
      have hor' : x.id = deriveId env pf.path ∨ x.source_path = pf.path := by
        simpa using hor
      rcases hor' with hcon | hcon
      · exact hxid' (hcon.trans hid.symm)
      · exact hxid' (congrArg PhotoRow.id
          (pathsNodup_unique hpaths hxdb hrmem (hcon.trans hrpath.symm)))
    unfold photoCreate
    rw [htr]
    simp only
    rw [if_neg hnot]
    exact ⟨rfl, hid.symm, rfl⟩

/-- Witness for C2 at the up-to-date row of `dbW`. -/
theorem photo_sync_change_detection_witness :
    ((4 : Int) ≤ 5 →
      (∀ b, Photo.new envW cfgW dbW { photoFileW1 with bytes := b } false =
        .ok (markPhoto dbW (keyHash envW pathW1), photoRowW1)) ∧
      (markPhoto dbW (keyHash envW pathW1)).photos =
        dbW.photos.map
          (fun x => if x.id == keyHash envW pathW1 then { x with mark := true } else x)) ∧
    ((5 : Int) < 4 → keyHash envW pathW1 = deriveId envW photoFileW1.path →
      ∀ rend, photoTransform envW cfgW photoFileW1.bytes = some rend →
        Photo.new envW cfgW dbW photoFileW1 false =
          .ok ({ dbW with
                   photos := dbW.photos.filter (fun x => x.id != keyHash envW pathW1) ++
                     [newPhotoRow envW photoFileW1 false rend],
                   postsPhotos := dbW.postsPhotos.filter
                     (fun a => a.photo_id != keyHash envW pathW1) },
               newPhotoRow envW photoFileW1 false rend) ∧
        (newPhotoRow envW photoFileW1 false rend).id = keyHash envW pathW1 ∧
        (newPhotoRow envW photoFileW1 false rend).source_time = photoFileW1.mtime) :=
  photo_sync_change_detection envW cfgW dbW photoFileW1 false photoRowW1
    (by decide) (by decide)

/-! ### Tag replacement and post-level structure -/

/-- The settled id of a post directory (empty when the sidecar has none). -/
def PostDir.pid (p : PostDir) : String :=
  (p.metadata.bind (fun m => m.id)).getD ""

theorem set_tags_get_tags (dbx : DB) (pid : String) (tags : List String) :
    Post.get_tags (Post.set_tags dbx pid tags) pid = tags := by
  unfold Post.get_tags Post.set_tags
  simp only [List.filter_append, List.filter_filter]
  have h1 : dbx.tags.filter (fun a => a.post_id == pid && (a.post_id != pid)) = [] := by
    rw [List.filter_eq_nil_iff]
    intro a _
    by_cases h : a.post_id = pid <;> simp [h]
  have h2 : (tags.map (fun tg => ({ post_id := pid, tag := tg } : TagRow))).filter
      (fun t => t.post_id == pid) = tags.map (fun tg => ({ post_id := pid, tag := tg } : TagRow)) := by
    rw [List.filter_eq_self]
    intro a ha
    simp only [List.mem_map] at ha
    obtain ⟨tg, -, rfl⟩ := ha
    simp
  rw [h1, h2, List.nil_append, List.map_map]
  exact (List.map_congr_left (fun a _ => rfl)).trans (List.map_id tags)

theorem set_tags_get_tags_other (dbx : DB) (pid other : String) (tags : List String)
    (hne : other ≠ pid) :
    Post.get_tags (Post.set_tags dbx pid tags) other = Post.get_tags dbx other := by
  unfold Post.get_tags Post.set_tags
  simp only [List.filter_append, List.filter_filter]
  have h2 : (tags.map (fun tg => ({ post_id := pid, tag := tg } : TagRow))).filter
      (fun t => t.post_id == other) = [] := by
    rw [List.filter_eq_nil_iff]
    intro a ha
    simp only [List.mem_map] at ha
    obtain ⟨tg, -, rfl⟩ := ha
    simp only [beq_iff_eq]
    exact fun hcon => hne (hcon ▸ rfl)
  rw [h2]
  have h1 : dbx.tags.filter (fun a => a.post_id == other && (a.post_id != pid)) =
      dbx.tags.filter (fun a => a.post_id == other) := by
    apply List.filter_congr
    intro a _
    by_cases h : a.post_id = other
    · simp [h, hne]
    · simp [h]
  rw [h1]
  simp

theorem Photo.new_posts (env : Env) (cfg : Config) (db : DB) (pf : PhotoFile)
    (priv : Bool) (db' : DB) (r : PhotoRow)
    (h : Photo.new env cfg db pf priv = .ok (db', r)) :
    db'.posts = db.posts ∧ db'.tags = db.tags ∧ db'.assets = db.assets ∧
    db'.files = db.files ∧ db'.users = db.users ∧ db'.postsAssets = db.postsAssets := by
  unfold Photo.new at h
  have hcreate : ∀ dbx : DB, photoCreate env cfg dbx pf priv = .ok (db', r) →
      db'.posts = dbx.posts ∧ db'.tags = dbx.tags ∧ db'.assets = dbx.assets ∧
      db'.files = dbx.files ∧ db'.users = dbx.users ∧ db'.postsAssets = dbx.postsAssets := by
    intro dbx hc
    obtain ⟨rend, -, -, hdb, -⟩ := photoCreate_ok env cfg dbx pf priv db' r hc
    subst hdb
    exact ⟨rfl, rfl, rfl, rfl, rfl, rfl⟩
  split at h
  next ex heq =>
    split at h
    next htime =>
      simp only [Except.ok.injEq, Prod.mk.injEq] at h
      obtain ⟨hdb, -⟩ := h
      rw [← hdb]
      exact ⟨rfl, rfl, rfl, rfl, rfl, rfl⟩
    next htime =>
      exact hcreate (deletePhotoById db ex.id) h
  next heq => exact hcreate db h

theorem insertPostAssets_fields (pid : String) :
    ∀ (as : List AssetFile) (db : DB),
      (insertPostAssets db pid as).posts = db.posts ∧
      (insertPostAssets db pid as).tags = db.tags ∧
      (insertPostAssets db pid as).photos = db.photos ∧
      (insertPostAssets db pid as).files = db.files ∧
      (insertPostAssets db pid as).users = db.users ∧
      (insertPostAssets db pid as).postsPhotos = db.postsPhotos := by
  intro as
  induction as with
  | nil => intro db; exact ⟨rfl, rfl, rfl, rfl, rfl, rfl⟩
  | cons a rest ih =>
    intro db
    simpa [insertPostAssets, Asset.new] using ih _

theorem insertPostPhotos_fields (env : Env) (cfg : Config) (pid : String) (priv : Bool) :
    ∀ (l : List PhotoFile) (db db2 : DB),
      insertPostPhotos env cfg db pid priv l = .ok db2 →
      db2.posts = db.posts ∧ db2.tags = db.tags ∧ db2.assets = db.assets ∧
      db2.files = db.files ∧ db2.users = db.users ∧ db2.postsAssets = db.postsAssets := by
  intro l
  induction l with
  | nil =>
    intro db db2 h
    simp only [insertPostPhotos, Except.ok.injEq] at h
    subst h
    exact ⟨rfl, rfl, rfl, rfl, rfl, rfl⟩
  | cons pf rest ih =>
    intro db db2 h
    unfold insertPostPhotos at h
    split at h
    next e heq => exact Except.noConfusion h
    next res heq =>
      obtain ⟨h1, h2, h3, h4, h5, h6⟩ :=
        Photo.new_posts env cfg db pf priv res.1 res.2 (by rw [heq])
      obtain ⟨g1, g2, g3, g4, g5, g6⟩ := ih _ _ h
      exact ⟨g1.trans h1, g2.trans h2, g3.trans h3, g4.trans h4, g5.trans h5, g6.trans h6⟩

theorem postInsertAll_ok_shape (env : Env) (cfg : Config) (db : DB) (pid : String)
    (meta : PostMetadata) (source : String) (p : PostDir) (db' : DB)
    (h : postInsertAll env cfg db pid meta source p = .ok db') :
    db.posts.any (fun q => q.id == pid) = false ∧
    ∃ db4 : DB, db' = Post.set_tags db4 pid (meta.tags.map normalizeTag) ∧
      db4.posts = db.posts ++ [newPostRow pid meta source] := by
  unfold postInsertAll at h
  split at h
  next hdup => exact Except.noConfusion h
  next hdup =>
    refine ⟨by revert hdup; cases db.posts.any (fun q => q.id == pid) <;> simp, ?_⟩
    split at h
    next e heq => exact Except.noConfusion h
    next db3 heq3 =>
      split at h
      next e heq => exact Except.noConfusion h
      next db4 heq4 =>
        simp only [Except.ok.injEq] at h
        refine ⟨db4, h.symm, ?_⟩
        obtain ⟨g1, -⟩ := insertPostPhotos_fields env cfg pid true _ _ _ heq4
        obtain ⟨f1, -⟩ := insertPostPhotos_fields env cfg pid false _ _ _ heq3
        obtain ⟨a1, -⟩ := insertPostAssets_fields pid p.assets _
        rw [g1, f1, a1]

/-- C7: tag normalization and replace semantics. A successful `Post::new`
leaves, for the settled post id, exactly the sidecar tags lower-cased with
spaces replaced by underscores; and `set_tags` (replaceTags) on any state
leaves exactly the passed list for that post, with no residue from earlier
tag rows of that post. -/
theorem tags_normalize_replace (env : Env) (cfg : Config) (db : DB)
    (p : PostDir) (rng : Nat) (p' : PostDir) (rng' : Nat) (db' : DB)
    (meta : PostMetadata) (hmeta : p.metadata = some meta)
    (hok : Post.new env cfg db p rng = (p', rng', .ok db')) :
    Post.get_tags db' p'.pid = meta.tags.map normalizeTag ∧
    ∀ (dbx : DB) (pid : String) (tags : List String),
      Post.get_tags (Post.set_tags dbx pid tags) pid = tags := by
  refine ⟨?_, fun dbx pid tags => set_tags_get_tags dbx pid tags⟩
  unfold Post.new at hok
  split at hok
  next hcontent =>
    simp only [Prod.mk.injEq] at hok
    exact Except.noConfusion hok.2.2
  next source hcontent =>
    split at hok
    next hmeta0 =>
      rw [hmeta0] at hmeta
      exact Option.noConfusion hmeta
    next meta0 hmeta0 =>
      rw [hmeta0] at hmeta
      injection hmeta with hmeta
      subst hmeta
      split at hok
      next pid hid =>
        simp only [Prod.mk.injEq] at hok
        obtain ⟨hp, -, hout⟩ := hok
        rcases hout' : postInsertAll env cfg db pid meta0 source p with e | dbo
        · rw [hout'] at hout
          exact Except.noConfusion hout
        · rw [hout'] at hout
          injection hout with hout
          obtain ⟨-, db4, hset, -⟩ :=
            postInsertAll_ok_shape env cfg db pid meta0 source p dbo hout'
          have hpid : p'.pid = pid := by
            rw [← hp]
            simp [PostDir.pid, hmeta0, hid]
          rw [hpid, ← hout, hset]
          exact set_tags_get_tags db4 pid (meta0.tags.map normalizeTag)
      next hid =>
        simp only [Prod.mk.injEq] at hok
        obtain ⟨hp, -, hout⟩ := hok
        rcases hout' : postInsertAll env cfg db (genPostId env rng)
            { meta0 with id := some (genPostId env rng) } source p with e | dbo
        · rw [hout'] at hout
          exact Except.noConfusion hout
        · rw [hout'] at hout
          injection hout with hout
          obtain ⟨-, db4, hset, -⟩ :=
            postInsertAll_ok_shape env cfg db (genPostId env rng)
              { meta0 with id := some (genPostId env rng) } source p dbo hout'
          have hpid : p'.pid = genPostId env rng := by
            rw [← hp]
            simp [PostDir.pid]
          rw [hpid, ← hout, hset]
          exact set_tags_get_tags db4 (genPostId env rng) (meta0.tags.map normalizeTag)

/-- C5: post id generation and persistence. With readable content and
parseable metadata: when the sidecar lacks an id, a 16-hex-digit id is
generated from the random stream, written back into the returned sidecar
regardless of whether the subsequent database writes succeed (the write-back
precedes them), and used as the inserted row's id; when the sidecar carries
an id, the sidecar and random stream are left untouched (the id is never
regenerated) and the stored row reuses that exact id. -/
theorem post_id_generation_persistence (env : Env) (cfg : Config) (db : DB)
    (p : PostDir) (rng : Nat) (meta : PostMetadata) (src : String)
    (hsrc : p.content = some src) (hmeta : p.metadata = some meta) :
    (meta.id = none →
      (Post.new env cfg db p rng).1 =
        { p with metadata := some { meta with id := some (genPostId env rng) } } ∧
      (Post.new env cfg db p rng).2.1 = rng + 1 ∧
      (genPostId env rng).length = 16 ∧
      ∀ db', (Post.new env cfg db p rng).2.2 = .ok db' →
        ∃ q ∈ db'.posts, q.id = genPostId env rng) ∧
    (∀ i, meta.id = some i →
      (Post.new env cfg db p rng).1 = p ∧
      (Post.new env cfg db p rng).2.1 = rng ∧
      ∀ db', (Post.new env cfg db p rng).2.2 = .ok db' →
        ∃ q ∈ db'.posts, q.id = i) := by
  have hposts : ∀ (pid : String) (m : PostMetadata) (db' : DB),
      postInsertAll env cfg db pid m src p = .ok db' →
      ∃ q ∈ db'.posts, q.id = pid := by
    intro pid m db' hout
    obtain ⟨-, db4, hset, hposts4⟩ := postInsertAll_ok_shape env cfg db pid m src p db' hout
    refine ⟨newPostRow pid m src, ?_, rfl⟩
    rw [hset]
    show newPostRow pid m src ∈ db4.posts
    rw [hposts4]
    simp
  constructor
  · intro hid
    simp only [Post.new, hsrc, hmeta, hid]
    refine ⟨trivial, trivial, format016x_length _, ?_⟩
    intro db' hout
    exact hposts _ _ db' hout
  · intro i hid
    simp only [Post.new, hsrc, hmeta, hid]
    refine ⟨trivial, trivial, ?_⟩
    intro db' hout
    exact hposts _ _ db' hout

/-- Witness sidecar metadata without an id. -/
def metaW : PostMetadata :=
  { id := none, title := "t", description := none, date := "d",
    tags := ["A B"], permalink := none }

/-- Witness post directory. -/
def postDirW : PostDir :=
  { content := some "s", metadata := some metaW, assets := [],
    publicPhotos := [], privatePhotos := [] }

/-- The empty database. -/
def dbE : DB := ⟨[], [], [], [], [], [], [], []⟩

/-- The id the witness run generates. -/
def pidW : String := genPostId envW 0

/-- Witness sidecar after the id write-back. -/
def metaW2 : PostMetadata := { metaW with id := some pidW }

/-- Witness post directory after the id write-back. -/
def postDirW2 : PostDir := { postDirW with metadata := some metaW2 }

/-- Witness database produced by `Post::new` on `postDirW`. -/
def dbW7x : DB := ((Post.new envW cfgW dbE postDirW 0).2.2).toOption.getD dbE

/-- Witness for C7: the stored tags of the witness post are exactly the
normalized sidecar tags. -/
theorem tags_normalize_replace_witness :
    Post.get_tags dbW7x postDirW2.pid = metaW.tags.map normalizeTag ∧
    ∀ (dbx : DB) (pid : String) (tags : List String),
      Post.get_tags (Post.set_tags dbx pid tags) pid = tags :=
  tags_normalize_replace envW cfgW dbE postDirW 0 postDirW2 1 dbW7x metaW rfl (by decide)

/-- Witness for C5 at the witness post directory. -/
theorem post_id_generation_persistence_witness :
    (metaW.id = none →
      (Post.new envW cfgW dbE postDirW 0).1 =
        { postDirW with metadata := some { metaW with id := some (genPostId envW 0) } } ∧
      (Post.new envW cfgW dbE postDirW 0).2.1 = 0 + 1 ∧
      (genPostId envW 0).length = 16 ∧
      ∀ db', (Post.new envW cfgW dbE postDirW 0).2.2 = .ok db' →
        ∃ q ∈ db'.posts, q.id = genPostId envW 0) ∧
    (∀ i, metaW.id = some i →
      (Post.new envW cfgW dbE postDirW 0).1 = postDirW ∧
      (Post.new envW cfgW dbE postDirW 0).2.1 = 0 ∧
      ∀ db', (Post.new envW cfgW dbE postDirW 0).2.2 = .ok db' →
        ∃ q ∈ db'.posts, q.id = i) :=
  post_id_generation_persistence envW cfgW dbE postDirW 0 metaW (postDirW.content.getD "")
    rfl rfl

/-! ### Item failures abort the rebuild (main.rs:52-54, photo.rs:81-84) -/

theorem buildPosts_bad_aborts (env : Env) (cfg : Config) :
    ∀ (ps : List PostDir) (db : DB) (rng : Nat),
      (∃ p ∈ ps, p.content = none ∨ p.metadata = none) →
      (buildPosts env cfg db ps rng).2.2.isOk = false := by
  intro ps
  induction ps with
  | nil =>
    intro db rng h
    obtain ⟨p, hp, -⟩ := h
    exact absurd hp (List.not_mem_nil p)
  | cons p rest ih =>
    intro db rng h
    unfold buildPosts
    split
    next p' rng' e heq => rfl
    next p' rng' db1 heq =>
      split
      next rest' rng'' out heq2 =>
        obtain ⟨q, hq, hbad⟩ := h
        rcases List.mem_cons.mp hq with rfl | hqrest
        · exfalso
          unfold Post.new at heq
          rcases hbad with hbad | hbad
          · rw [hbad] at heq
            simp only [Prod.mk.injEq] at heq
            exact Except.noConfusion heq.2.2
          · rcases hc : q.content with _ | src
            · rw [hc] at heq
              simp only [Prod.mk.injEq] at heq
              exact Except.noConfusion heq.2.2
            · rw [hc, hbad] at heq
              simp only [Prod.mk.injEq] at heq
              exact Except.noConfusion heq.2.2
        · have := ih db1 rng' ⟨q, hqrest, hbad⟩
          rw [heq2] at this
          exact this

/-- The amended C4: a failing item is not skipped. If the rebuild returns
successfully then every post directory had readable content and parseable
metadata; equivalently, a single unreadable or unparseable post aborts the
whole rebuild (the `?` in main.rs:53 propagates the error). -/
theorem build_item_failure_aborts (env : Env) (cfg : Config) (tree : Tree)
    (db : DB) (rng : Nat)
    (h : ∃ p ∈ tree.posts, p.content = none ∨ p.metadata = none) :
    (build env cfg tree db rng).2.2.isOk = false := by
  unfold build buildRest
  split
  next e heq => rfl
  next users1 heq =>
    split
    next posts' rng' e heq2 => rfl
    next posts' rng' db3 heq2 =>
      have hpass := buildPosts_bad_aborts env cfg tree.posts
        { deleteAllUsers (deleteAllAssets (deleteAllFiles (unmarkAllPhotos (deleteAllPosts db)))) with
          users := users1,
          files := insertFilesList
            (deleteAllUsers (deleteAllAssets (deleteAllFiles
              (unmarkAllPhotos (deleteAllPosts db))))).files
            tree.files }
        rng h
      rw [heq2] at hpass
      simp [Except.isOk, Except.toBool] at hpass

/-- A post directory whose metadata sidecar fails to parse. -/
def badPostW : PostDir :=
  { content := some "x", metadata := none, assets := [],
    publicPhotos := [], privatePhotos := [] }

/-- A tree whose first post is unparseable and whose second is fine. -/
def treeBadMeta : Tree := { files := [], posts := [badPostW, postDirW] }

/-- An environment whose image decoder always fails (a corrupt photo). -/
def envB : Env := { envW with decode := fun _ => none }

/-- A tree whose only post carries one corrupt photo. -/
def treeBadPhoto : Tree :=
  { files := [],
    posts := [{ content := some "x", metadata := some metaW2, assets := [],
                publicPhotos := [photoFileW1], privatePhotos := [] }] }

/-- Counterexample to C4 as stated: a source tree in which exactly one item
(a corrupt photo) fails makes the whole rebuild abort with a decode error
instead of skipping the item and completing. -/
theorem build_abort_counterexample :
    photoTransform envB cfgW photoFileW1.bytes = none ∧
    (build envB cfgW treeBadPhoto dbE 0).2.2 = .error BuildError.decodeError ∧
    (build envB cfgW treeBadPhoto dbE 0).2.2.isOk = false := by
  decide

/-- Witness for the amended C4: the unparseable post of `treeBadMeta` aborts
that rebuild. -/
theorem build_item_failure_aborts_witness :
    (build envW cfgW treeBadMeta dbE 0).2.2.isOk = false :=
  build_item_failure_aborts envW cfgW treeBadMeta dbE 0 (by decide)

/-! ### The listPhotos contract (photo.rs:171-226) -/

theorem sortedJoin_sorted (db : DB) (pid : Option String) :
    List.Sorted photoOrd (sortedJoin db pid) :=
  List.sorted_insertionSort photoOrd _

theorem photoListWindow_sublist (db : DB) (pid : Option String)
    (off lim : Option Nat) (w : List (PhotoRow × PostRow))
    (h : photoListWindow db pid off lim = .ok w) :
    w.Sublist (sortedJoin db pid) := by
  unfold photoListWindow at h
  rcases lim with _ | l
  · rcases off with _ | o
    · injection h with h
      subst h
      exact List.Sublist.refl _
    · exact Except.noConfusion h
  · rcases off with _ | o
    · injection h with h
      subst h
      exact List.take_sublist _ _
    · injection h with h
      subst h
      exact (List.take_sublist _ _).trans (List.drop_sublist _ _)

/-- C8 counterexample database: one post, one photo, one association — the
join is not empty, so a window would exist if the query were valid. -/
def dbL : DB :=
  ⟨[{ id := "p1", title := "T", description := none, date := "2024-01-01",
      permalink := none, source := "s" }],
   [],
   [{ id := "ph1", mark := true, is_private := false, source_path := "a.jpg",
      source_time := 1, image_large_jpg := [1], image_small_jpg := [2] }],
   [], [],
   [{ post_id := "p1", photo_id := "ph1" }],
   [], []⟩

/-- C8 counterexample: the claim promises a returned, ordered item list and
hidden count for every offset/limit combination, but with an offset and no
limit the generated SQL ends in a bare `OFFSET n` with no `LIMIT` clause
(photo.rs:192-198), which SQLite rejects as a syntax error; the query fails
and the `.expect` at photo.rs:208-211 panics, so `listPhotos` returns
nothing at all — modeled as the store error. -/
theorem list_photos_offset_counterexample :
    Photo.list dbL true none (some 0) none = .error .storeError := rfl

/-- C8 (amended): the `listPhotos` contract for every offset/limit
combination whose generated SQL is valid — a limit present, or no offset
(an `OFFSET` with no `LIMIT` is invalid SQLite and the call panics instead,
see the counterexample). The fetched window is sorted by the parent post's
date descending, tie-broken by the photo's `source_time` descending; the
call returns exactly the window's photos with private ones removed unless
`includePrivate`, paired with a hidden count that is zero when
`includePrivate` is set and otherwise counts exactly the private photos
excluded from the returned result. -/
theorem list_photos_contract (db : DB) (inc : Bool) (pid : Option String)
    (off lim : Option Nat) (hvalid : lim.isSome = true ∨ off = none) :
    ∃ w, photoListWindow db pid off lim = .ok w ∧
      List.Sorted photoOrd w ∧
      Photo.list db inc pid off lim = .ok
        ((w.map (fun x => x.1)).filter (fun ph => !ph.is_private || inc),
          if inc then 0
          else (w.map (fun x => x.1)).countP (fun ph => ph.is_private)) := by
  obtain ⟨w, hw⟩ : ∃ w, photoListWindow db pid off lim = .ok w := by
    rcases lim with _ | l
    · rcases hvalid with hsome | hnone
      · exact absurd hsome (by simp)
      · subst hnone
        exact ⟨sortedJoin db pid, rfl⟩
    · rcases off with _ | o
      · exact ⟨(sortedJoin db pid).take l, rfl⟩
      · exact ⟨((sortedJoin db pid).drop o).take l, rfl⟩
  refine ⟨w, hw, ?_, ?_⟩
  · exact List.Pairwise.sublist (photoListWindow_sublist db pid off lim w hw)
      (sortedJoin_sorted db pid)
  · unfold Photo.list
    rw [hw]
    refine congrArg (fun z => Except.ok
      ((w.map (fun x => x.1)).filter (fun ph => !ph.is_private || inc), z)) ?_
    show (w.map (fun x => x.1)).length -
        ((w.map (fun x => x.1)).filter (fun ph => !ph.is_private || inc)).length = _
    rcases inc with _ | _
    · simp only [Bool.or_false, if_neg Bool.false_ne_true]
      have hlen := List.length_eq_countP_add_countP
        (fun ph : PhotoRow => ph.is_private) (w.map (fun x => x.1))
      have hq : ((w.map (fun x => x.1)).filter (fun ph => !ph.is_private)).length =
          (w.map (fun x => x.1)).countP (fun a => decide ¬a.is_private = true) := by
        rw [List.countP_eq_length_filter]
        apply congrArg
        apply List.filter_congr
        intro a _
        cases hx : a.is_private <;> simp [hx]
      rw [hq]
      omega
    · simp

/-- Witness for C8: a valid combination (offset and limit both present) on
the counterexample database returns the sorted, filtered window with its
hidden count. -/
theorem list_photos_contract_witness :
    ∃ w, photoListWindow dbL none (some 0) (some 5) = .ok w ∧
      List.Sorted photoOrd w ∧
      Photo.list dbL false none (some 0) (some 5) = .ok
        ((w.map (fun x => x.1)).filter (fun ph => !ph.is_private || false),
          if false then 0
          else (w.map (fun x => x.1)).countP (fun ph => ph.is_private)) :=
  list_photos_contract dbL false none (some 0) (some 5) (by decide)

/-! ### The users table across a rebuild (main.rs:39-43, user.rs) -/

theorem insertUsersList_ok (env : Env) :
    ∀ (us : List UserEntry) (acc out : List UserRow),
      insertUsersList env acc us = .ok out →
      out = acc ++ us.map (fun u => { key_hash := keyHash env u.key, group_name := u.group }) := by
  intro us
  induction us with
  | nil =>
    intro acc out h
    simp only [insertUsersList, Except.ok.injEq] at h
    simp [← h]
  | cons u rest ih =>
    intro acc out h
    unfold insertUsersList at h
    split at h
    next hdup => exact Except.noConfusion h
    next hdup =>
      rw [ih _ _ h, List.append_assoc]
      rfl

theorem postInsertAll_files_users (env : Env) (cfg : Config) (db : DB)
    (pid : String) (meta : PostMetadata) (source : String) (p : PostDir) (db' : DB)
    (h : postInsertAll env cfg db pid meta source p = .ok db') :
    db'.files = db.files ∧ db'.users = db.users := by
  unfold postInsertAll at h
  split at h
  next hdup => exact Except.noConfusion h
  next hdup =>
    split at h
    next e heq => exact Except.noConfusion h
    next db3 heq3 =>
      split at h
      next e heq => exact Except.noConfusion h
      next db4 heq4 =>
        simp only [Except.ok.injEq] at h
        obtain ⟨-, -, -, g4, g5, -⟩ := insertPostPhotos_fields env cfg pid true _ _ _ heq4
        obtain ⟨-, -, -, f4, f5, -⟩ := insertPostPhotos_fields env cfg pid false _ _ _ heq3
        obtain ⟨-, -, -, a4, a5, -⟩ := insertPostAssets_fields pid p.assets
          { db with posts := db.posts ++ [newPostRow pid meta source] }
        rw [← h]
        exact ⟨(g4.trans f4).trans a4, (g5.trans f5).trans a5⟩

theorem Post.new_files_users (env : Env) (cfg : Config) (db : DB) (p : PostDir)
    (rng : Nat) (p' : PostDir) (rng' : Nat) (db' : DB)
    (h : Post.new env cfg db p rng = (p', rng', .ok db')) :
    db'.files = db.files ∧ db'.users = db.users := by
  unfold Post.new at h
  split at h
  next hcontent =>
    simp only [Prod.mk.injEq] at h
    exact Except.noConfusion h.2.2
  next source hcontent =>
    split at h
    next hmeta0 =>
      simp only [Prod.mk.injEq] at h
      exact Except.noConfusion h.2.2
    next meta0 hmeta0 =>
      split at h
      next pid hid =>
        simp only [Prod.mk.injEq] at h
        obtain ⟨-, -, hout⟩ := h
        rcases hpia : postInsertAll env cfg db pid meta0 source p with e | dbo <;>
          rw [hpia] at hout
        · exact Except.noConfusion hout
        · injection hout with hout
          rw [← hout]
          exact postInsertAll_files_users env cfg db pid meta0 source p dbo hpia
      next hid =>
        simp only [Prod.mk.injEq] at h
        obtain ⟨-, -, hout⟩ := h
        rcases hpia : postInsertAll env cfg db (genPostId env rng)
            { meta0 with id := some (genPostId env rng) } source p with e | dbo <;>
          rw [hpia] at hout
        · exact Except.noConfusion hout
        · injection hout with hout
          rw [← hout]
          exact postInsertAll_files_users env cfg db (genPostId env rng)
            { meta0 with id := some (genPostId env rng) } source p dbo hpia

theorem buildPosts_files_users (env : Env) (cfg : Config) :
    ∀ (ps : List PostDir) (db : DB) (rng : Nat) (ps' : List PostDir) (rng' : Nat) (db' : DB),
      buildPosts env cfg db ps rng = (ps', rng', .ok db') →
      db'.files = db.files ∧ db'.users = db.users := by
  intro ps
  induction ps with
  | nil =>
    intro db rng ps' rng' db' h
    simp only [buildPosts, Prod.mk.injEq] at h
    obtain ⟨-, -, hout⟩ := h
    injection hout with hout
    rw [← hout]
    exact ⟨rfl, rfl⟩
  | cons p rest ih =>
    intro db rng ps' rng' db' h
    unfold buildPosts at h
    split at h
    next p1 rng1 e heq =>
      simp only [Prod.mk.injEq] at h
      exact Except.noConfusion h.2.2
    next p1 rng1 db1 heq =>
      split at h
      next rest1 rng2 out heq2 =>
        simp only [Prod.mk.injEq] at h
        obtain ⟨-, -, hout⟩ := h
        subst hout
        obtain ⟨f1, u1⟩ := Post.new_files_users env cfg db p rng p1 rng1 db1 heq
        obtain ⟨f2, u2⟩ := ih db1 rng1 rest1 rng2 db' heq2
        exact ⟨f2.trans f1, u2.trans u1⟩

/-- C10: every successful rebuild also rewrites the users table: it ends
holding exactly one row per entry of the configuration's user list, keyed by
the 16-hex-digit hash of the configured key (the old rows having been
deleted before the files and posts passes). -/
theorem users_table_rebuild (env : Env) (cfg : Config) (tree : Tree) (db : DB)
    (rng : Nat) (tree' : Tree) (rng' : Nat) (db' : DB)
    (hok : build env cfg tree db rng = (tree', rng', .ok db')) :
    db'.users = cfg.users.map
      (fun u => { key_hash := keyHash env u.key, group_name := u.group }) ∧
    ∀ u ∈ db'.users, u.key_hash.length = 16 := by
  have husers : db'.users = cfg.users.map
      (fun u => { key_hash := keyHash env u.key, group_name := u.group }) := by
    unfold build buildRest at hok
    split at hok
    next e heq =>
      simp only [Prod.mk.injEq] at hok
      exact Except.noConfusion hok.2.2
    next users1 heq =>
      have husers1 := insertUsersList_ok env cfg.users _ users1 heq
      split at hok
      next posts' rng1 e heq2 =>
        simp only [Prod.mk.injEq] at hok
        exact Except.noConfusion hok.2.2
      next posts' rng1 db3 heq2 =>
        simp only [Prod.mk.injEq] at hok
        obtain ⟨-, -, hout⟩ := hok
        injection hout with hout
        obtain ⟨-, u3⟩ := buildPosts_files_users env cfg tree.posts _ rng posts' rng1 db3 heq2
        rw [← hout]
        show db3.users = _
        rw [u3]
        show users1 = _
        rw [husers1]
        rfl
  refine ⟨husers, ?_⟩
  intro u hu
  rw [husers] at hu
  simp only [List.mem_map] at hu
  obtain ⟨w, -, rfl⟩ := hu
  exact format016x_length _

/-- The empty source tree. -/
def treeE : Tree := { files := [], posts := [] }

/-- Witness configuration with one user entry. -/
def cfgU : Config := { photo_max_preview_size := 2, photo_quality := 80, users := [⟨"k", "g"⟩] }

/-- The database the witness rebuild produces. -/
def dbU : DB := ((build envW cfgU treeE dbE 0).2.2).toOption.getD dbE

/-- Witness for C10: the witness rebuild leaves exactly the configured user,
keyed by a 16-hex-digit hash. -/
theorem users_table_rebuild_witness :
    dbU.users = cfgU.users.map
      (fun u => { key_hash := keyHash envW u.key, group_name := u.group }) ∧
    ∀ u ∈ dbU.users, u.key_hash.length = 16 :=
  users_table_rebuild envW cfgU treeE dbE 0 treeE 0 dbU (by decide)

/-! ### Machinery for the whole-rebuild theorems: mark/sweep and idempotence -/

/-- A photo row with its mark flag cleared, as `unmark_all` leaves it. -/
def unmarkRow (x : PhotoRow) : PhotoRow := { x with mark := false }

/-- Set the mark flag on every row whose source path satisfies `f`. -/
def markIf (f : String → Bool) (ps : List PhotoRow) : List PhotoRow :=
  ps.map (fun x => if f x.source_path then { x with mark := true } else x)

/-- The id stored at a source path (empty when absent). -/
def idAt (photos : List PhotoRow) (p : String) : String :=
  ((rowAt photos p).map (fun r => r.id)).getD ""

/-- The standing invariant over the photo side of the store: unique paths,
unique ids, and every `posts_photos` row written this pass references a
marked photo row. -/
def PhotoInv (db : DB) : Prop :=
  pathsNodup db.photos ∧ idsNodup db.photos ∧
  ∀ a ∈ db.postsPhotos, ∃ m ∈ db.photos, m.id = a.photo_id ∧ m.mark = true

/-- Fallback metadata for projections (never used on settled dirs). -/
def defaultMeta : PostMetadata :=
  { id := none, title := "", description := none, date := "", tags := [], permalink := none }

/-- The metadata of a post directory (fallback when unreadable). -/
def PostDir.meta (p : PostDir) : PostMetadata := p.metadata.getD defaultMeta

/-- The post row a settled directory inserts. -/
def postRowOfDir (p : PostDir) : PostRow := newPostRow p.pid p.meta (p.content.getD "")

/-- A post directory is settled when its content is readable and its
metadata carries an id — the state `Post::new` leaves on disk. -/
def PostDir.settled (p : PostDir) : Prop :=
  (∃ s, p.content = some s) ∧ ∃ m, p.metadata = some m ∧ ∃ i, m.id = some i

/-- The normalized tag list of a post directory. -/
def normTagsOf (p : PostDir) : List String := p.meta.tags.map normalizeTag

/-- The tags table after the pass: per post, delete-then-insert. -/
def tagsFold : List TagRow → List PostDir → List TagRow
  | acc, [] => acc
  | acc, p :: rest =>
    tagsFold (acc.filter (fun t => t.post_id != p.pid) ++
      (normTagsOf p).map (fun tg => { post_id := p.pid, tag := tg })) rest

/-- The styles and posts_assets tables after one post's asset loop. -/
def assetsFold : List AssetRow → List PostAssetRow → String → List AssetFile →
    List AssetRow × List PostAssetRow
  | ast, pa, _, [] => (ast, pa)
  | ast, pa, pid, a :: rest =>
    assetsFold (ast ++ [{ id := nextAssetId ast, name := a.name, data := a.bytes }])
      (pa ++ [{ post_id := pid, asset_id := nextAssetId ast }]) pid rest

/-- The styles and posts_assets tables after the whole pass. -/
def assetsPassFold : List AssetRow × List PostAssetRow → List PostDir →
    List AssetRow × List PostAssetRow
  | st, [] => st
  | st, p :: rest => assetsPassFold (assetsFold st.1 st.2 p.pid p.assets) rest

/-- The association rows one post contributes, with ids read off a photo
table. -/
def dirAssocs (photos : List PhotoRow) (p : PostDir) : List PostPhotoRow :=
  (PostDir.photoFiles p).map
    (fun pfb => { post_id := p.pid, photo_id := idAt photos pfb.1.path })

/-- All association rows of a pass, with ids read off a photo table. -/
def assocsOf (photos : List PhotoRow) (ps : List PostDir) : List PostPhotoRow :=
  (ps.map (dirAssocs photos)).flatten

/-- The PRIMARY KEY checks of the pass's post inserts, as a function of the
starting posts table. -/
def postsCheckFold : List PostRow → List PostDir → Bool
  | _, [] => true
  | acc, p :: rest =>
    !(acc.any (fun q => q.id == p.pid)) && postsCheckFold (acc ++ [postRowOfDir p]) rest

theorem rowAt_map (g : PhotoRow → PhotoRow)
    (hg : ∀ x, (g x).source_path = x.source_path) (ps : List PhotoRow) (p : String) :
    rowAt (ps.map g) p = (rowAt ps p).map g := by
  induction ps with
  | nil => rfl
  | cons x rest ih =>
    unfold rowAt at *
    by_cases hx : (x.source_path == p) = true
    · simp [List.find?_cons, hg x, hx]
    · simp [List.find?_cons, hg x, hx, ih]

theorem markIf_map_path (f : String → Bool) (ps : List PhotoRow) :
    (markIf f ps).map (fun r => r.source_path) = ps.map (fun r => r.source_path) := by
  unfold markIf
  rw [List.map_map]
  apply List.map_congr_left
  intro x _
  simp only [Function.comp]
  split <;> rfl

theorem markIf_map_id (f : String → Bool) (ps : List PhotoRow) :
    (markIf f ps).map (fun r => r.id) = ps.map (fun r => r.id) := by
  unfold markIf
  rw [List.map_map]
  apply List.map_congr_left
  intro x _
  simp only [Function.comp]
  split <;> rfl

theorem rowAt_markIf (f : String → Bool) (ps : List PhotoRow) (p : String) :
    rowAt (markIf f ps) p =
      (rowAt ps p).map (fun x => if f x.source_path then { x with mark := true } else x) :=
  rowAt_map _ (fun x => by split <;> rfl) ps p

theorem rowAt_unmark (ps : List PhotoRow) (p : String) :
    rowAt (ps.map unmarkRow) p = (rowAt ps p).map unmarkRow :=
  rowAt_map unmarkRow (fun x => rfl) ps p

theorem markIf_congr (f g : String → Bool) (ps : List PhotoRow)
    (h : ∀ x ∈ ps, f x.source_path = g x.source_path) :
    markIf f ps = markIf g ps := by
  unfold markIf
  apply List.map_congr_left
  intro x hx
  rw [h x hx]

theorem idAt_markIf (f : String → Bool) (ps : List PhotoRow) (p : String) :
    idAt (markIf f ps) p = idAt ps p := by
  unfold idAt
  rw [rowAt_markIf]
  rcases rowAt ps p with _ | s
  · rfl
  · show ((some (if f s.source_path then { s with mark := true } else s)).map
      (fun r => r.id)).getD "" = ((some s).map (fun r => r.id)).getD ""
    split <;> rfl

theorem idAt_unmark (ps : List PhotoRow) (p : String) :
    idAt (ps.map unmarkRow) p = idAt ps p := by
  unfold idAt
  rw [rowAt_unmark]
  rcases rowAt ps p with _ | s <;> rfl

theorem mark_by_id_markIf (base : List PhotoRow) (m : String → Bool) (p : String)
    (ex : PhotoRow) (hpN : pathsNodup base) (hiN : idsNodup base)
    (hex : rowAt (markIf m base) p = some ex) :
    (markIf m base).map (fun x => if x.id == ex.id then { x with mark := true } else x) =
      markIf (fun q => m q || q == p) base := by
  rw [rowAt_markIf] at hex
  rcases hb : rowAt base p with _ | b <;> rw [hb] at hex
  · exact Option.noConfusion hex
  · injection hex with hex
    have hbmem : b ∈ base := rowAt_some_mem hb
    have hbpath : b.source_path = p := rowAt_some_path hb
    have hex' : ex = if m b.source_path = true then { b with mark := true } else b := hex.symm
    have hexid : ex.id = b.id := by
      rw [hex']
      split <;> rfl
    unfold markIf
    rw [List.map_map]
    apply List.map_congr_left
    intro x hx
    simp only [Function.comp]
    by_cases hxp : x.source_path = p
    · have hxb : x = b := pathsNodup_unique hpN hx hbmem (hxp.trans hbpath.symm)
      subst hxb
      have hcond : ((if m x.source_path = true then { x with mark := true } else x).id == ex.id) = true := by
        rw [hexid]
        split <;> simp
      rw [if_pos hcond]
      have hor : (m x.source_path || (x.source_path == p)) = true := by
        simp [hxp]
      rw [if_pos hor]
      split <;> rfl
    · have hidne : x.id ≠ b.id := by
        intro hcon
        exact hxp (congrArg PhotoRow.source_path (idsNodup_unique hiN hx hbmem hcon) |>.trans hbpath)
      have hcond : ((if m x.source_path = true then { x with mark := true } else x).id == ex.id) = false := by
        rw [hexid]
        split <;> simp [hidne]
      rw [if_neg (by simp [hcond])]
      have hor : (m x.source_path || (x.source_path == p)) = m x.source_path := by
        simp [hxp]
      simp only [hor]

theorem sweep_photos (db : DB) :
    (deleteUnmarkedPhotos db).photos = db.photos.filter (fun r => r.mark) := rfl

theorem sweep_fields (db : DB) :
    (deleteUnmarkedPhotos db).posts = db.posts ∧
    (deleteUnmarkedPhotos db).tags = db.tags ∧
    (deleteUnmarkedPhotos db).assets = db.assets ∧
    (deleteUnmarkedPhotos db).files = db.files ∧
    (deleteUnmarkedPhotos db).users = db.users ∧
    (deleteUnmarkedPhotos db).postsAssets = db.postsAssets :=
  ⟨rfl, rfl, rfl, rfl, rfl, rfl⟩

theorem sweep_assocs (db : DB) (hI : PhotoInv db) :
    (deleteUnmarkedPhotos db).postsPhotos = db.postsPhotos := by
  obtain ⟨-, hiN, hsafe⟩ := hI
  show db.postsPhotos.filter _ = db.postsPhotos
  apply List.filter_eq_self.mpr
  intro a ha
  obtain ⟨mrow, hm, hmid, hmmark⟩ := hsafe a ha
  apply List.all_eq_true.mpr
  intro r hr
  simp only [List.mem_filter] at hr
  obtain ⟨hrmem, hrdead⟩ := hr
  have hne : r ≠ mrow := by
    intro hcon
    rw [hcon, hmmark] at hrdead
    simp at hrdead
  have hid : r.id ≠ mrow.id := fun hcon => hne (idsNodup_unique hiN hrmem hm hcon)
  rw [hmid] at hid
  simpa using hid

theorem rowAt_filter_marked (ps : List PhotoRow) (p : String) (s : PhotoRow)
    (hpN : pathsNodup ps) (h : rowAt ps p = some s) (hs : s.mark = true) :
    rowAt (ps.filter (fun r => r.mark)) p = some s := by
  induction ps with
  | nil => exact Option.noConfusion h
  | cons x rest ih =>
    have hpN' : pathsNodup rest := by
      unfold pathsNodup at hpN ⊢
      exact (List.nodup_cons.mp hpN).2
    unfold rowAt at h ⊢
    by_cases hx : (x.source_path == p) = true
    · simp only [List.find?_cons, hx] at h
      injection h with h
      subst h
      rw [List.filter_cons, if_pos hs]
      simp only [List.find?_cons, hx]
    · have hx' : (x.source_path == p) = false := by
        simpa using hx
      simp only [List.find?_cons, hx'] at h
      rw [List.filter_cons]
      split
      · simp only [List.find?_cons, hx']
        exact ih hpN' h
      · exact ih hpN' h

theorem clear_of_wf (db : DB) (h : DB.wf db) :
    deleteAllUsers (deleteAllAssets (deleteAllFiles (unmarkAllPhotos (deleteAllPosts db)))) =
      { posts := [], tags := [], photos := db.photos.map unmarkRow, assets := [],
        files := [], postsPhotos := [], postsAssets := [], users := [] } := by
  obtain ⟨ht, hpp, hpa, -, -⟩ := h
  have htags : db.tags.filter (fun t => !(db.posts.any (fun q => q.id == t.post_id))) = [] := by
    rw [List.filter_eq_nil_iff]
    intro t htm
    obtain ⟨q, hq, hqid⟩ := ht t htm
    simp only [Bool.not_eq_true', Bool.not_eq_false, List.any_eq_true]
    exact ⟨q, hq, by simp [hqid]⟩
  have hassocs : db.postsPhotos.filter
      (fun a => !(db.posts.any (fun q => q.id == a.post_id))) = [] := by
    rw [List.filter_eq_nil_iff]
    intro a ham
    obtain ⟨q, hq, hqid⟩ := hpp a ham
    simp only [Bool.not_eq_true', Bool.not_eq_false, List.any_eq_true]
    exact ⟨q, hq, by simp [hqid]⟩
  have hpassets : db.postsAssets.filter
      (fun a => !(db.posts.any (fun q => q.id == a.post_id))) = [] := by
    rw [List.filter_eq_nil_iff]
    intro a ham
    obtain ⟨q, hq, hqid⟩ := hpa a ham
    simp only [Bool.not_eq_true', Bool.not_eq_false, List.any_eq_true]
    exact ⟨q, hq, by simp [hqid]⟩
  unfold deleteAllUsers deleteAllAssets deleteAllFiles unmarkAllPhotos deleteAllPosts
  simp only [htags, hassocs, hpassets, List.filter_nil]
  rfl

theorem rowAt_append_single_ne (l : List PhotoRow) (a : PhotoRow) (q : String)
    (hne : a.source_path ≠ q) : rowAt (l ++ [a]) q = rowAt l q := by
  unfold rowAt
  rw [List.find?_append]
  have : List.find? (fun r => r.source_path == q) [a] = none := by
    simp [List.find?_cons, hne]
  rw [this, Option.or_none]

theorem rowAt_append_single_self (l : List PhotoRow) (a : PhotoRow)
    (h : ∀ r ∈ l, r.source_path ≠ a.source_path) :
    rowAt (l ++ [a]) a.source_path = some a := by
  unfold rowAt
  rw [List.find?_append]
  have h1 : List.find? (fun r => r.source_path == a.source_path) l = none := by
    rw [List.find?_eq_none]
    intro x hx
    simpa using h x hx
  rw [h1]
  simp [List.find?_cons]

theorem rowAt_filter_keep (ps : List PhotoRow) (f : PhotoRow → Bool) (q : String)
    (hkeep : ∀ r ∈ ps, r.source_path = q → f r = true) :
    rowAt (ps.filter f) q = rowAt ps q := by
  induction ps with
  | nil => rfl
  | cons x rest ih =>
    have ih' := ih (fun r hr => hkeep r (List.mem_cons_of_mem x hr))
    unfold rowAt at ih' ⊢
    rw [List.filter_cons]
    by_cases hx : (x.source_path == q) = true
    · have hfx : f x = true := hkeep x (List.mem_cons_self x rest) (by simpa using hx)
      rw [if_pos hfx]
      simp only [List.find?_cons, hx]
    · have hx' : (x.source_path == q) = false := by simpa using hx
      split
      · simp only [List.find?_cons, hx']
        exact ih'
      · simp only [List.find?_cons, hx']
        exact ih'

theorem markPhoto_map_id (db : DB) (i : String) :
    ((markPhoto db i).photos).map (fun r => r.id) = db.photos.map (fun r => r.id) := by
  simp only [markPhoto, List.map_map]
  refine List.map_congr_left ?_
  intro a _
  simp only [Function.comp]
  split <;> rfl

/-- Master description of one successful photo-sync step during a pass: the
path now holds a marked, sufficiently recent row carrying the returned id;
no other path changed; newly marked rows are old marked rows or this path;
the association table is untouched; and all key/reference invariants are
preserved. -/
theorem photoNew_step (env : Env) (cfg : Config) (db : DB) (pf : PhotoFile)
    (priv : Bool) (db' : DB) (r' : PhotoRow)
    (hpN : pathsNodup db.photos) (hiN : idsNodup db.photos)
    (hsafe : ∀ a ∈ db.postsPhotos, ∃ m ∈ db.photos, m.id = a.photo_id ∧ m.mark = true)
    (hfresh : ∀ x ∈ db.photos, x.mark = true → x.source_path ≠ pf.path)
    (h : Photo.new env cfg db pf priv = .ok (db', r')) :
    (∃ s, rowAt db'.photos pf.path = some s ∧ s.mark = true ∧
      pf.mtime ≤ s.source_time ∧ s.id = r'.id) ∧
    (∀ q, q ≠ pf.path → rowAt db'.photos q = rowAt db.photos q) ∧
    (∀ x ∈ db'.photos, x.mark = true → (x ∈ db.photos ∧ x.mark = true) ∨
      x.source_path = pf.path) ∧
    db'.postsPhotos = db.postsPhotos ∧
    pathsNodup db'.photos ∧ idsNodup db'.photos ∧
    (∀ a ∈ db'.postsPhotos, ∃ m ∈ db'.photos, m.id = a.photo_id ∧ m.mark = true) := by
  have hcreate : ∀ dbx : DB,
      dbx.photos.Sublist db.photos →
      (∀ x ∈ db.photos, x.source_path = pf.path → x ∉ dbx.photos) →
      dbx.postsPhotos = db.postsPhotos →
      (∀ m ∈ db.photos, m.mark = true → m ∈ dbx.photos) →
      photoCreate env cfg dbx pf priv = .ok (db', r') →
      (∃ s, rowAt db'.photos pf.path = some s ∧ s.mark = true ∧
        pf.mtime ≤ s.source_time ∧ s.id = r'.id) ∧
      (∀ q, q ≠ pf.path → rowAt db'.photos q = rowAt dbx.photos q) ∧
      (∀ x ∈ db'.photos, x.mark = true → (x ∈ dbx.photos ∧ x.mark = true) ∨
        x.source_path = pf.path) ∧
      db'.postsPhotos = dbx.postsPhotos ∧
      (pathsNodup dbx.photos → pathsNodup db'.photos) ∧
      (idsNodup dbx.photos → idsNodup db'.photos) ∧
      (∀ a ∈ db'.postsPhotos, ∃ m ∈ db'.photos, m.id = a.photo_id ∧ m.mark = true) := by
    intro dbx hsub hgone hppx hmarkedin hc
    obtain ⟨rend, -, hrow, hdb, hfreshc⟩ := photoCreate_ok env cfg dbx pf priv db' r' hc
    have hrpath : r'.source_path = pf.path := by rw [hrow]; rfl
    have hrmark : r'.mark = true := by rw [hrow]; rfl
    have hrtime : r'.source_time = pf.mtime := by rw [hrow]; rfl
    subst hdb
    refine ⟨⟨r', ?_, hrmark, by rw [hrtime], rfl⟩, ?_, ?_, rfl, ?_, ?_, ?_⟩
    · show rowAt (dbx.photos ++ [r']) pf.path = some r'
      rw [← hrpath]
      exact rowAt_append_single_self _ _
        (fun x hx => fun hcon => (hfreshc x hx).2 (hcon.trans hrpath))
    · intro q hq
      show rowAt (dbx.photos ++ [r']) q = rowAt dbx.photos q
      exact rowAt_append_single_ne _ _ _ (fun hcon => hq (hrpath ▸ hcon).symm)
    · intro x hx hmx
      rcases List.mem_append.mp hx with hx | hx
      · exact Or.inl ⟨hx, hmx⟩
      · rcases List.mem_singleton.mp hx with rfl
        exact Or.inr hrpath
    · intro hN
      unfold pathsNodup at hN ⊢
      rw [List.map_append, List.nodup_append]
      refine ⟨hN, by simp, ?_⟩
      intro z hz
      simp only [List.mem_map] at hz
      obtain ⟨w, hw, rfl⟩ := hz
      simp only [List.map_cons, List.map_nil, List.mem_singleton]
      exact fun hcon => (hfreshc w hw).2 (hcon.trans hrpath)
    · intro hN
      unfold idsNodup at hN ⊢
      rw [List.map_append, List.nodup_append]
      refine ⟨hN, by simp, ?_⟩
      intro z hz
      simp only [List.mem_map] at hz
      obtain ⟨w, hw, rfl⟩ := hz
      simp only [List.map_cons, List.map_nil, List.mem_singleton]
      intro hcon
      exact (hfreshc w hw).1 (by rw [hcon, hrow]; rfl)
    · intro a ha
      have ha' : a ∈ dbx.postsPhotos := ha
      rw [hppx] at ha'
      obtain ⟨m, hm, hmid, hmmark⟩ := hsafe a ha'
      exact ⟨m, List.mem_append_left _ (hmarkedin m hm hmmark), hmid, hmmark⟩
  unfold Photo.new at h
  split at h
  next ex heq =>
    have hexmem : ex ∈ db.photos := rowAt_some_mem heq
    have hexpath : ex.source_path = pf.path := rowAt_some_path heq
    split at h
    next htime =>
      simp only [Except.ok.injEq, Prod.mk.injEq] at h
      obtain ⟨hdb, hr⟩ := h
      subst hdb
      subst hr
      have hg : ∀ y ∈ db.photos, y.id ≠ ex.id →
          (if y.id == ex.id then { y with mark := true } else y) = y := by
        intro y _ hy
        rw [if_neg (by simpa using hy)]
      refine ⟨⟨{ ex with mark := true }, ?_, rfl, htime, rfl⟩, ?_, ?_, rfl, ?_, ?_, ?_⟩
      · show rowAt (markPhoto db ex.id).photos pf.path = _
        unfold markPhoto
        simp only
        rw [rowAt_map _ (fun x => by split <;> rfl), heq]
        simp
      · intro q hq
        show rowAt (markPhoto db ex.id).photos q = rowAt db.photos q
        unfold markPhoto
        simp only
        rw [rowAt_map _ (fun x => by split <;> rfl)]
        rcases hy : rowAt db.photos q with _ | y
        · rfl
        · have hymem : y ∈ db.photos := rowAt_some_mem hy
          have hypath : y.source_path = q := rowAt_some_path hy
          have hyne : y.id ≠ ex.id := by
            intro hcon
            exact hq (hypath ▸ congrArg PhotoRow.source_path
              (idsNodup_unique hiN hymem hexmem hcon) ▸ hexpath)
          show some (if y.id == ex.id then { y with mark := true } else y) = some y
          rw [hg y hymem hyne]
      · intro x hx hmx
        have hx' : x ∈ (markPhoto db ex.id).photos := hx
        unfold markPhoto at hx'
        simp only [List.mem_map] at hx'
        obtain ⟨y, hy, rfl⟩ := hx'
        by_cases hid : y.id = ex.id
        · have hyex : y = ex := idsNodup_unique hiN hy hexmem hid
          subst hyex
          right
          split <;> exact hexpath
        · rw [hg y hy hid]
          rw [hg y hy hid] at hmx
          exact Or.inl ⟨hy, hmx⟩
      · unfold pathsNodup
        rw [markPhoto_map_path]
        exact hpN
      · unfold idsNodup
        rw [markPhoto_map_id]
        exact hiN
      · intro a ha
        obtain ⟨m, hm, hmid, hmmark⟩ := hsafe a ha
        refine ⟨if m.id == ex.id then { m with mark := true } else m, ?_, ?_, ?_⟩
        · show _ ∈ (markPhoto db ex.id).photos
          unfold markPhoto
          simp only
          exact List.mem_map_of_mem _ hm
        · split <;> simpa using hmid
        · split <;> simp [hmmark]
    next htime =>
      have hexunmarked : ex.mark = false := by
        by_contra hcon
        exact hfresh ex hexmem (by revert hcon; cases ex.mark <;> simp) hexpath
      have hppdel : (deletePhotoById db ex.id).postsPhotos = db.postsPhotos := by
        show db.postsPhotos.filter _ = db.postsPhotos
        apply List.filter_eq_self.mpr
        intro a ha
        obtain ⟨m, hm, hmid, hmmark⟩ := hsafe a ha
        have hne : m ≠ ex := by
          intro hcon
          rw [hcon, hexunmarked] at hmmark
          exact Bool.false_ne_true hmmark
        have : m.id ≠ ex.id := fun hcon => hne (idsNodup_unique hiN hm hexmem hcon)
        rw [hmid] at this
        simpa using this
      obtain ⟨c1, c2, c3, c4, c5, c6, c7⟩ := hcreate (deletePhotoById db ex.id)
        (List.Sublist.trans (List.filter_sublist _) (List.Sublist.refl _))
        (fun x hx hxp => by
          have hxe : x = ex := pathsNodup_unique hpN hx hexmem (hxp.trans hexpath.symm)
          subst hxe
          show x ∉ db.photos.filter (fun r => r.id != x.id)
          intro hcon
          rw [List.mem_filter] at hcon
          simp at hcon)
        hppdel
        (fun m hm hmmark => by
          have hne : m ≠ ex := by
            intro hcon
            rw [hcon, hexunmarked] at hmmark
            exact Bool.false_ne_true hmmark
          have hid : m.id ≠ ex.id := fun hcon => hne (idsNodup_unique hiN hm hexmem hcon)
          show m ∈ db.photos.filter (fun r => r.id != ex.id)
          simp only [List.mem_filter]
          exact ⟨hm, by simpa using hid⟩)
        h
      refine ⟨c1, ?_, ?_, c4.trans hppdel, ?_, ?_, c7⟩
      · intro q hq
        rw [c2 q hq]
        show rowAt (db.photos.filter (fun r => r.id != ex.id)) q = rowAt db.photos q
        apply rowAt_filter_keep
        intro r hr hrq
        have hne : r ≠ ex := by
          intro hcon
          apply hq
          rw [← hrq, hcon, hexpath]
        have : r.id ≠ ex.id := fun hcon => hne (idsNodup_unique hiN hr hexmem hcon)
        simpa using this
      · intro x hx hmx
        rcases c3 x hx hmx with ⟨hxin, hxm⟩ | hxp
        · have hxin' : x ∈ db.photos.filter (fun r => r.id != ex.id) := hxin
          rw [List.mem_filter] at hxin'
          exact Or.inl ⟨hxin'.1, hxm⟩
        · exact Or.inr hxp
      · exact c5 (hpN.sublist (List.Sublist.map _ (List.filter_sublist _)))
      · exact c6 (hiN.sublist (List.Sublist.map _ (List.filter_sublist _)))
  next heq =>
    have hnone : ∀ x ∈ db.photos, x.source_path ≠ pf.path := rowAt_eq_none heq
    obtain ⟨c1, c2, c3, c4, c5, c6, c7⟩ := hcreate db (List.Sublist.refl _)
      (fun x hx hxp => absurd hxp (hnone x hx)) rfl (fun m hm _ => hm) h
    exact ⟨c1, c2, c3, c4, c5 hpN, c6 hiN, c7⟩

/-- The photo loop of one post, generically: every listed path ends marked
and recent, other paths are untouched, the association rows appended are
exactly one per file carrying the id now stored at its path, and the
invariants persist. -/
theorem insertPostPhotos_pass (env : Env) (cfg : Config) (pid : String) (priv : Bool) :
    ∀ (l : List PhotoFile) (db db2 : DB),
      insertPostPhotos env cfg db pid priv l = .ok db2 →
      pathsNodup db.photos → idsNodup db.photos →
      (∀ a ∈ db.postsPhotos, ∃ m ∈ db.photos, m.id = a.photo_id ∧ m.mark = true) →
      (∀ x ∈ db.photos, x.mark = true → x.source_path ∉ l.map (fun pf => pf.path)) →
      (l.map (fun pf => pf.path)).Nodup →
      (∀ pf ∈ l, ∃ s, rowAt db2.photos pf.path = some s ∧ s.mark = true ∧
        pf.mtime ≤ s.source_time) ∧
      (∀ q, q ∉ l.map (fun pf => pf.path) → rowAt db2.photos q = rowAt db.photos q) ∧
      (∀ x ∈ db2.photos, x.mark = true → (x ∈ db.photos ∧ x.mark = true) ∨
        x.source_path ∈ l.map (fun pf => pf.path)) ∧
      db2.postsPhotos = db.postsPhotos ++
        l.map (fun pf => { post_id := pid, photo_id := idAt db2.photos pf.path }) ∧
      pathsNodup db2.photos ∧ idsNodup db2.photos ∧
      (∀ a ∈ db2.postsPhotos, ∃ m ∈ db2.photos, m.id = a.photo_id ∧ m.mark = true) := by
  intro l
  induction l with
  | nil =>
    intro db db2 h hpN hiN hsafe hfresh hnodup
    simp only [insertPostPhotos, Except.ok.injEq] at h
    subst h
    refine ⟨by simp, fun q _ => rfl, ?_, by simp, hpN, hiN, hsafe⟩
    intro x hx hmx
    exact Or.inl ⟨hx, hmx⟩
  | cons pf rest ih =>
    intro db db2 h hpN hiN hsafe hfresh hnodup
    unfold insertPostPhotos at h
    split at h
    next e heq => exact Except.noConfusion h
    next res heq =>
      have hstep := photoNew_step env cfg db pf priv res.1 res.2 hpN hiN hsafe
        (fun x hx hmx => by
          have := hfresh x hx hmx
          simp only [List.map_cons, List.mem_cons, not_or] at this
          exact this.1)
        (by rw [heq])
      obtain ⟨⟨s, hs, hsmark, hstime, hsid⟩, hstab, hmarked, hppeq, hpN1, hiN1, hsafe1⟩ := hstep
      have hrestpaths : pf.path ∉ rest.map (fun pf => pf.path) := by
        have := hnodup
        simp only [List.map_cons, List.nodup_cons] at this
        exact this.1
      have hmid := ih
        { res.1 with postsPhotos := res.1.postsPhotos ++ [{ post_id := pid, photo_id := res.2.id }] }
        db2 h hpN1 hiN1
        (by
          intro a ha
          have ha' : a ∈ res.1.postsPhotos ++ [{ post_id := pid, photo_id := res.2.id }] := ha
          rcases List.mem_append.mp ha' with ha2 | ha2
          · exact hsafe1 a ha2
          · rcases List.mem_singleton.mp ha2 with rfl
            exact ⟨s, rowAt_some_mem hs, hsid, hsmark⟩)
        (by
          intro x hx hmx
          rcases hmarked x hx hmx with ⟨hxdb, hxm⟩ | hxp
          · have := hfresh x hxdb hxm
            simp only [List.map_cons, List.mem_cons, not_or] at this
            exact this.2
          · rw [hxp]
            exact hrestpaths)
        (by
          have := hnodup
          simp only [List.map_cons, List.nodup_cons] at this
          exact this.2)
      obtain ⟨ih1, ih2, ih3, ih4, ih5, ih6, ih7⟩ := hmid
      have hpfstable : rowAt db2.photos pf.path = some s :=
        (ih2 pf.path hrestpaths).trans hs
      refine ⟨?_, ?_, ?_, ?_, ih5, ih6, ih7⟩
      · intro pg hpg
        rcases List.mem_cons.mp hpg with rfl | hpg
        · exact ⟨s, hpfstable, hsmark, hstime⟩
        · exact ih1 pg hpg
      · intro q hq
        simp only [List.map_cons, List.mem_cons, not_or] at hq
        exact ((ih2 q hq.2).trans (hstab q hq.1))
      · intro x hx hmx
        rcases ih3 x hx hmx with ⟨hxmid, hxm⟩ | hxp
        · rcases hmarked x hxmid hxm with ⟨hxdb, hxm2⟩ | hxp2
          · exact Or.inl ⟨hxdb, hxm2⟩
          · right
            rw [hxp2]
            simp
        · right
          simp only [List.map_cons, List.mem_cons]
          exact Or.inr hxp
      · rw [ih4]
        show (res.1.postsPhotos ++ [{ post_id := pid, photo_id := res.2.id }]) ++ _ = _
        rw [hppeq, List.append_assoc]
        apply congrArg
        have hidpf : idAt db2.photos pf.path = res.2.id := by
          unfold idAt
          rw [hpfstable]
          simpa using hsid
        simp only [List.map_cons]
        rw [hidpf]
        rfl

/-- One fresh photo-sync step: when the stored row at the path is at least
as recent as the file, `Photo::new` only marks, and at the list level the
photo table moves from `markIf m` to `markIf (m or path)`. -/
theorem photoNew_fresh (env : Env) (cfg : Config) (db : DB) (pf : PhotoFile)
    (priv : Bool) (m : String → Bool) (base : List PhotoRow) (b : PhotoRow)
    (hphotos : db.photos = markIf m base)
    (hb : rowAt base pf.path = some b) (htime : pf.mtime ≤ b.source_time)
    (hpB : pathsNodup base) (hiB : idsNodup base) :
    Photo.new env cfg db pf priv =
      .ok ({ db with photos := markIf (fun q => m q || q == pf.path) base },
        if m b.source_path = true then { b with mark := true } else b) := by
  have hex : rowAt db.photos pf.path =
      some (if m b.source_path = true then { b with mark := true } else b) := by
    rw [hphotos, rowAt_markIf, hb]
    rfl
  unfold Photo.new
  simp only [hex]
  rw [if_pos (show pf.mtime ≤
      (if m b.source_path = true then { b with mark := true } else b).source_time by
    split <;> exact htime)]
  have hmap := mark_by_id_markIf base m pf.path
    (if m b.source_path = true then { b with mark := true } else b) hpB hiB
    (by rw [← hphotos]; exact hex)
  have hfst : markPhoto db
      (if m b.source_path = true then { b with mark := true } else b).id =
      { db with photos := markIf (fun q => m q || q == pf.path) base } := by
    unfold markPhoto
    simp only
    rw [hphotos, hmap]
  rw [hfst]

/-- The photo loop of one post on a fresh tree: every file finds an
up-to-date row, so the loop only marks the listed paths and appends the
association rows with the ids stored in the base table. -/
theorem insertPostPhotos_fresh (env : Env) (cfg : Config) (pid : String) (priv : Bool) :
    ∀ (l : List PhotoFile) (db : DB) (m : String → Bool) (base : List PhotoRow),
      db.photos = markIf m base →
      pathsNodup base → idsNodup base →
      (∀ pf ∈ l, ∃ b, rowAt base pf.path = some b ∧ pf.mtime ≤ b.source_time) →
      insertPostPhotos env cfg db pid priv l =
        .ok { db with
          photos := markIf (fun q => m q || l.any (fun pf => pf.path == q)) base,
          postsPhotos := db.postsPhotos ++
            l.map (fun pf => { post_id := pid, photo_id := idAt base pf.path }) } := by
  intro l
  induction l with
  | nil =>
    intro db m base hphotos hpB hiB hall
    have hnil : insertPostPhotos env cfg db pid priv [] = Except.ok db := rfl
    rw [hnil]
    apply congrArg
    have h1 : markIf (fun q => m q || [].any (fun pf : PhotoFile => pf.path == q)) base =
        markIf m base := markIf_congr _ _ _ (fun x _ => by simp)
    rcases db with ⟨f1, f2, f3, f4, f5, f6, f7, f8⟩
    simp only at hphotos
    simp only [h1, ← hphotos, List.map_nil, List.append_nil]
  | cons pf rest ih =>
    intro db m base hphotos hpB hiB hall
    obtain ⟨b, hb, htime⟩ := hall pf (List.mem_cons_self pf rest)
    have hstep := photoNew_fresh env cfg db pf priv m base b hphotos hb htime hpB hiB
    unfold insertPostPhotos
    rw [hstep]
    dsimp only
    have hmid := ih
      { db with
          photos := markIf (fun q => m q || q == pf.path) base,
          postsPhotos := db.postsPhotos ++
            [{ post_id := pid,
               photo_id := (if m b.source_path = true then { b with mark := true } else b).id }] }
      (fun q => m q || q == pf.path) base rfl hpB hiB
      (fun pg hpg => hall pg (List.mem_cons_of_mem pf hpg))
    rw [hmid]
    apply congrArg
    have hph : markIf (fun q => (m q || q == pf.path) ||
        rest.any (fun pg => pg.path == q)) base =
        markIf (fun q => m q || (pf :: rest).any (fun pg => pg.path == q)) base := by
      apply markIf_congr
      intro x _
      simp only [List.any_cons]
      cases m x.source_path <;> cases hxq : (pf.path == x.source_path) <;>
        simp [BEq.comm] at hxq ⊢ <;> simp [hxq]
    have hid : (if m b.source_path = true then { b with mark := true } else b).id =
        idAt base pf.path := by
      unfold idAt
      rw [hb]
      split <;> rfl
    rcases db with ⟨f1, f2, f3, f4, f5, f6, f7, f8⟩
    simp only at hphotos ⊢
    rw [hph, hid, List.append_assoc]
    rfl

/-- The source paths of all photo files of one post directory. -/
def PostDir.photoPaths (p : PostDir) : List String :=
  (PostDir.photoFiles p).map (fun pfb => pfb.1.path)

theorem photoPaths_eq (p : PostDir) :
    PostDir.photoPaths p =
      p.publicPhotos.map (fun pf => pf.path) ++ p.privatePhotos.map (fun pf => pf.path) := by
  unfold PostDir.photoPaths PostDir.photoFiles
  rw [List.map_append, List.map_map, List.map_map]
  rfl

theorem insertPostAssets_assetsFold (pid : String) :
    ∀ (as : List AssetFile) (db : DB),
      (insertPostAssets db pid as).assets = (assetsFold db.assets db.postsAssets pid as).1 ∧
      (insertPostAssets db pid as).postsAssets =
        (assetsFold db.assets db.postsAssets pid as).2 := by
  intro as
  induction as with
  | nil => intro db; exact ⟨rfl, rfl⟩
  | cons a rest ih =>
    intro db
    unfold insertPostAssets Asset.new assetsFold
    dsimp only
    exact ih _

/-- Master description of the database half of one successful `Post::new`
during a pass: every table's outcome, the photo-side tracking facts, and the
preserved invariants. -/
theorem postInsertAll_pass (env : Env) (cfg : Config) (db : DB) (pid : String)
    (meta : PostMetadata) (source : String) (p : PostDir) (db1 : DB)
    (h : postInsertAll env cfg db pid meta source p = .ok db1)
    (hpN : pathsNodup db.photos) (hiN : idsNodup db.photos)
    (hsafe : ∀ a ∈ db.postsPhotos, ∃ m ∈ db.photos, m.id = a.photo_id ∧ m.mark = true)
    (hfresh : ∀ x ∈ db.photos, x.mark = true → x.source_path ∉ PostDir.photoPaths p)
    (hnodup : (PostDir.photoPaths p).Nodup) :
    db1.posts = db.posts ++ [newPostRow pid meta source] ∧
    db1.tags = db.tags.filter (fun t => t.post_id != pid) ++
      (meta.tags.map normalizeTag).map (fun tg => { post_id := pid, tag := tg }) ∧
    db1.assets = (assetsFold db.assets db.postsAssets pid p.assets).1 ∧
    db1.postsAssets = (assetsFold db.assets db.postsAssets pid p.assets).2 ∧
    db1.postsPhotos = db.postsPhotos ++ (PostDir.photoFiles p).map
      (fun pfb => { post_id := pid, photo_id := idAt db1.photos pfb.1.path }) ∧
    db1.files = db.files ∧ db1.users = db.users ∧
    (db.posts.any (fun q => q.id == pid)) = false ∧
    (∀ pfb ∈ PostDir.photoFiles p, ∃ s, rowAt db1.photos pfb.1.path = some s ∧
      s.mark = true ∧ pfb.1.mtime ≤ s.source_time) ∧
    (∀ q, q ∉ PostDir.photoPaths p → rowAt db1.photos q = rowAt db.photos q) ∧
    (∀ x ∈ db1.photos, x.mark = true → (x ∈ db.photos ∧ x.mark = true) ∨
      x.source_path ∈ PostDir.photoPaths p) ∧
    pathsNodup db1.photos ∧ idsNodup db1.photos ∧
    (∀ a ∈ db1.postsPhotos, ∃ m ∈ db1.photos, m.id = a.photo_id ∧ m.mark = true) := by
  have hdisj : ∀ z ∈ p.publicPhotos.map (fun pf => pf.path),
      z ∉ p.privatePhotos.map (fun pf => pf.path) := by
    rw [photoPaths_eq] at hnodup
    exact fun z hz => (List.nodup_append.mp hnodup).2.2 hz
  have hpubsub : ∀ z ∈ p.publicPhotos.map (fun pf => pf.path), z ∈ PostDir.photoPaths p := by
    rw [photoPaths_eq]
    exact fun z hz => List.mem_append_left _ hz
  have hprivsub : ∀ z ∈ p.privatePhotos.map (fun pf => pf.path), z ∈ PostDir.photoPaths p := by
    rw [photoPaths_eq]
    exact fun z hz => List.mem_append_right _ hz
  unfold postInsertAll at h
  split at h
  next hdup => exact Except.noConfusion h
  next hdup =>
    split at h
    next e heq3 => exact Except.noConfusion h
    next db3 heq3 =>
      split at h
      next e heq4 => exact Except.noConfusion h
      next db4 heq4 =>
        simp only [Except.ok.injEq] at h
        -- the state after the post insert and the asset loop
        obtain ⟨a2posts, a2tags, a2photos, a2files, a2users, a2pp⟩ :=
          insertPostAssets_fields pid p.assets
            { db with posts := db.posts ++ [newPostRow pid meta source] }
        obtain ⟨a2assets, a2passets⟩ := insertPostAssets_assetsFold pid p.assets
          { db with posts := db.posts ++ [newPostRow pid meta source] }
        -- the public pass
        obtain ⟨pub1, pub2, pub3, pub4, pub5, pub6, pub7⟩ :=
          insertPostPhotos_pass env cfg pid false p.publicPhotos _ db3 heq3
            (by rw [a2photos]; exact hpN) (by rw [a2photos]; exact hiN)
            (by
              rw [a2pp]
              intro a ha
              obtain ⟨mw, hm, hmid, hmmark⟩ := hsafe a ha
              exact ⟨mw, by rw [a2photos]; exact hm, hmid, hmmark⟩)
            (by
              rw [a2photos]
              intro x hx hmx
              exact fun hcon => hfresh x hx hmx (hpubsub _ hcon))
            (by
              rw [photoPaths_eq, List.nodup_append] at hnodup
              exact hnodup.1)
        obtain ⟨f3posts, f3tags, f3assets, f3files, f3users, f3passets⟩ :=
          insertPostPhotos_fields env cfg pid false p.publicPhotos _ db3 heq3
        -- the private pass
        obtain ⟨priv1, priv2, priv3, priv4, priv5, priv6, priv7⟩ :=
          insertPostPhotos_pass env cfg pid true p.privatePhotos db3 db4 heq4
            pub5 pub6 pub7
            (by
              intro x hx hmx
              rcases pub3 x hx hmx with ⟨hxdb, hxm⟩ | hxp
              · rw [a2photos] at hxdb
                exact fun hcon => hfresh x hxdb hxm (hprivsub _ hcon)
              · exact hdisj _ hxp)
            (by
              rw [photoPaths_eq, List.nodup_append] at hnodup
              exact hnodup.2.1)
        obtain ⟨f4posts, f4tags, f4assets, f4files, f4users, f4passets⟩ :=
          insertPostPhotos_fields env cfg pid true p.privatePhotos db3 db4 heq4
        -- db1 is set_tags applied to db4
        have hphotos1 : db1.photos = db4.photos := by rw [← h]; rfl
        have hposts1 : db1.posts = db4.posts := by rw [← h]; rfl
        have hassets1 : db1.assets = db4.assets := by rw [← h]; rfl
        have hpassets1 : db1.postsAssets = db4.postsAssets := by rw [← h]; rfl
        have hfiles1 : db1.files = db4.files := by rw [← h]; rfl
        have husers1 : db1.users = db4.users := by rw [← h]; rfl
        have hpp1 : db1.postsPhotos = db4.postsPhotos := by rw [← h]; rfl
        have htags1 : db1.tags = db4.tags.filter (fun t => t.post_id != pid) ++
            (meta.tags.map normalizeTag).map (fun tg => { post_id := pid, tag := tg }) := by
          rw [← h]
          rfl
        -- per-path stability of the private pass over public paths
        have hstab4 : ∀ pf ∈ p.publicPhotos, rowAt db4.photos pf.path = rowAt db3.photos pf.path := by
          intro pf hpf
          exact priv2 pf.path (hdisj pf.path (List.mem_map_of_mem _ hpf))
        refine ⟨?_, ?_, ?_, ?_, ?_, ?_, ?_, ?_, ?_, ?_, ?_, ?_, ?_, ?_⟩
        · rw [hposts1, f4posts, f3posts, a2posts]
        · rw [htags1, f4tags, f3tags, a2tags]
        · rw [hassets1, f4assets, f3assets, a2assets]
        · rw [hpassets1, f4passets, f3passets, a2passets]
        · rw [hpp1, priv4, pub4, a2pp, List.append_assoc]
          apply congrArg
          unfold PostDir.photoFiles
          rw [List.map_append, List.map_map, List.map_map]
          apply congrArg₂
          · apply List.map_congr_left
            intro pf hpf
            simp only [Function.comp]
            have : idAt db3.photos pf.path = idAt db1.photos pf.path := by
              unfold idAt
              rw [hphotos1, hstab4 pf hpf]
            rw [this]
          · apply List.map_congr_left
            intro pf hpf
            simp only [Function.comp]
            have : idAt db4.photos pf.path = idAt db1.photos pf.path := by
              rw [hphotos1]
            rw [this]
        · rw [hfiles1, f4files, f3files, a2files]
        · rw [husers1, f4users, f3users, a2users]
        · revert hdup
          cases db.posts.any (fun q => q.id == pid) <;> simp
        · intro pfb hpfb
          have hpfb' := hpfb
          unfold PostDir.photoFiles at hpfb'
          rcases List.mem_append.mp hpfb' with hmem | hmem
          · simp only [List.mem_map] at hmem
            obtain ⟨pf, hpf, rfl⟩ := hmem
            obtain ⟨s, hs, hsm, hst⟩ := pub1 pf hpf
            exact ⟨s, by rw [hphotos1, hstab4 pf hpf]; exact hs, hsm, hst⟩
          · simp only [List.mem_map] at hmem
            obtain ⟨pf, hpf, rfl⟩ := hmem
            obtain ⟨s, hs, hsm, hst⟩ := priv1 pf hpf
            exact ⟨s, by rw [hphotos1]; exact hs, hsm, hst⟩
        · intro q hq
          rw [photoPaths_eq] at hq
          simp only [List.mem_append, not_or] at hq
          rw [hphotos1, priv2 q hq.2, pub2 q hq.1, a2photos]
        · intro x hx hmx
          rw [hphotos1] at hx
          rcases priv3 x hx hmx with ⟨hx3, hxm3⟩ | hxp
          · rcases pub3 x hx3 hxm3 with ⟨hxdb, hxm⟩ | hxp
            · rw [a2photos] at hxdb
              exact Or.inl ⟨hxdb, hxm⟩
            · exact Or.inr (hpubsub _ hxp)
          · exact Or.inr (hprivsub _ hxp)
        · rw [hphotos1]
          exact priv5
        · rw [hphotos1]
          exact priv6
        · intro a ha
          rw [hpp1] at ha
          obtain ⟨mw, hm, hmid, hmmark⟩ := priv7 a ha
          exact ⟨mw, by rw [hphotos1]; exact hm, hmid, hmmark⟩

/-- `postNew_pass`: the `Post::new` wrapper around `postInsertAll_pass`,
phrased in terms of the settled directory it returns. -/
theorem postNew_pass (env : Env) (cfg : Config) (db : DB) (p : PostDir) (rng : Nat)
    (p' : PostDir) (rng' : Nat) (db1 : DB)
    (h : Post.new env cfg db p rng = (p', rng', .ok db1))
    (hpN : pathsNodup db.photos) (hiN : idsNodup db.photos)
    (hsafe : ∀ a ∈ db.postsPhotos, ∃ m ∈ db.photos, m.id = a.photo_id ∧ m.mark = true)
    (hfresh : ∀ x ∈ db.photos, x.mark = true → x.source_path ∉ PostDir.photoPaths p)
    (hnodup : (PostDir.photoPaths p).Nodup) :
    p'.content = p.content ∧ p'.assets = p.assets ∧
    p'.publicPhotos = p.publicPhotos ∧ p'.privatePhotos = p.privatePhotos ∧
    PostDir.settled p' ∧
    db1.posts = db.posts ++ [postRowOfDir p'] ∧
    db1.tags = db.tags.filter (fun t => t.post_id != p'.pid) ++
      (normTagsOf p').map (fun tg => { post_id := p'.pid, tag := tg }) ∧
    db1.assets = (assetsFold db.assets db.postsAssets p'.pid p'.assets).1 ∧
    db1.postsAssets = (assetsFold db.assets db.postsAssets p'.pid p'.assets).2 ∧
    db1.postsPhotos = db.postsPhotos ++ dirAssocs db1.photos p' ∧
    db1.files = db.files ∧ db1.users = db.users ∧
    (db.posts.any (fun q => q.id == p'.pid)) = false ∧
    (∀ pfb ∈ PostDir.photoFiles p, ∃ s, rowAt db1.photos pfb.1.path = some s ∧
      s.mark = true ∧ pfb.1.mtime ≤ s.source_time) ∧
    (∀ q, q ∉ PostDir.photoPaths p → rowAt db1.photos q = rowAt db.photos q) ∧
    (∀ x ∈ db1.photos, x.mark = true → (x ∈ db.photos ∧ x.mark = true) ∨
      x.source_path ∈ PostDir.photoPaths p) ∧
    pathsNodup db1.photos ∧ idsNodup db1.photos ∧
    (∀ a ∈ db1.postsPhotos, ∃ m ∈ db1.photos, m.id = a.photo_id ∧ m.mark = true) := by
  unfold Post.new at h
  split at h
  next hcontent =>
    simp only [Prod.mk.injEq] at h
    exact Except.noConfusion h.2.2
  next src hcontent =>
    split at h
    next hmeta0 =>
      simp only [Prod.mk.injEq] at h
      exact Except.noConfusion h.2.2
    next meta0 hmeta0 =>
      split at h
      next i hid =>
        simp only [Prod.mk.injEq] at h
        obtain ⟨hp, -, hout⟩ := h
        subst hp
        rcases hpia : postInsertAll env cfg db i meta0 src p with e | dbo <;>
          rw [hpia] at hout
        · exact Except.noConfusion hout
        · injection hout with hout
          subst hout
          have hpid : p.pid = i := by
            simp [PostDir.pid, hmeta0, hid]
          have hmetaeq : p.meta = meta0 := by
            simp [PostDir.meta, hmeta0]
          have hrow : postRowOfDir p = newPostRow i meta0 src := by
            unfold postRowOfDir
            rw [hpid, hmetaeq, hcontent]
            rfl
          obtain ⟨c1, c2, c3, c4, c5, c6, c7, c8, c9, c10, c11, c12, c13, c14⟩ :=
            postInsertAll_pass env cfg db i meta0 src p dbo hpia hpN hiN hsafe hfresh hnodup
          refine ⟨rfl, rfl, rfl, rfl, ⟨⟨src, hcontent⟩, meta0, hmeta0, i, hid⟩,
            ?_, ?_, ?_, ?_, ?_, c6, c7, ?_, c9, c10, c11, c12, c13, c14⟩
          · rw [c1, hrow]
          · rw [c2, hpid]
            unfold normTagsOf
            rw [hmetaeq]
          · rw [c3, hpid]
          · rw [c4, hpid]
          · rw [c5]
            unfold dirAssocs
            rw [hpid]
          · rw [hpid]
            exact c8
      next hid =>
        simp only [Prod.mk.injEq] at h
        obtain ⟨hp, -, hout⟩ := h
        subst hp
        rcases hpia : postInsertAll env cfg db (genPostId env rng)
            { meta0 with id := some (genPostId env rng) } src p with e | dbo <;>
          rw [hpia] at hout
        · exact Except.noConfusion hout
        · injection hout with hout
          subst hout
          obtain ⟨c1, c2, c3, c4, c5, c6, c7, c8, c9, c10, c11, c12, c13, c14⟩ :=
            postInsertAll_pass env cfg db (genPostId env rng)
              { meta0 with id := some (genPostId env rng) } src p dbo hpia hpN hiN hsafe
              hfresh hnodup
          have hrow : postRowOfDir { p with metadata := some { meta0 with id := some (genPostId env rng) } } = newPostRow (genPostId env rng) { meta0 with id := some (genPostId env rng) } src := by
            show newPostRow _ _ (p.content.getD "") = _
            rw [hcontent]
            rfl
          refine ⟨rfl, rfl, rfl, rfl,
            ⟨⟨src, hcontent⟩, { meta0 with id := some (genPostId env rng) }, rfl,
              genPostId env rng, rfl⟩,
            ?_, c2, c3, c4, c5, c6, c7, c8, c9, c10, c11, c12, c13, c14⟩
          rw [c1, hrow]

theorem passPhotoFiles_cons (p : PostDir) (rest : List PostDir) :
    passPhotoFiles (p :: rest) = PostDir.photoFiles p ++ passPhotoFiles rest := by
  unfold passPhotoFiles
  rw [List.map_cons, List.flatten_cons]

theorem passPaths_cons (p : PostDir) (rest : List PostDir) :
    passPaths (p :: rest) = PostDir.photoPaths p ++ passPaths rest := by
  unfold passPaths PostDir.photoPaths
  rw [passPhotoFiles_cons, List.map_append]

/-- Master description of one successful posts pass (main.rs:52-54): the
directories come back settled with their photo files unchanged, every table
has a closed form over the settled directories and the starting state, and
the photo-side tracking facts and invariants hold. -/
theorem buildPosts_pass (env : Env) (cfg : Config) :
    ∀ (ps : List PostDir) (db : DB) (rng : Nat) (ps2 : List PostDir) (rng2 : Nat) (dbf : DB),
      buildPosts env cfg db ps rng = (ps2, rng2, .ok dbf) →
      pathsNodup db.photos → idsNodup db.photos →
      (∀ a ∈ db.postsPhotos, ∃ m ∈ db.photos, m.id = a.photo_id ∧ m.mark = true) →
      (∀ x ∈ db.photos, x.mark = true → x.source_path ∉ passPaths ps) →
      (passPaths ps).Nodup →
      (∀ pd ∈ ps2, PostDir.settled pd) ∧
      passPhotoFiles ps2 = passPhotoFiles ps ∧
      dbf.posts = db.posts ++ ps2.map postRowOfDir ∧
      dbf.tags = tagsFold db.tags ps2 ∧
      dbf.assets = (assetsPassFold (db.assets, db.postsAssets) ps2).1 ∧
      dbf.postsAssets = (assetsPassFold (db.assets, db.postsAssets) ps2).2 ∧
      dbf.postsPhotos = db.postsPhotos ++ assocsOf dbf.photos ps2 ∧
      dbf.files = db.files ∧ dbf.users = db.users ∧
      postsCheckFold db.posts ps2 = true ∧
      (∀ pfb ∈ passPhotoFiles ps, ∃ s, rowAt dbf.photos pfb.1.path = some s ∧
        s.mark = true ∧ pfb.1.mtime ≤ s.source_time) ∧
      (∀ q, q ∉ passPaths ps → rowAt dbf.photos q = rowAt db.photos q) ∧
      (∀ x ∈ dbf.photos, x.mark = true → (x ∈ db.photos ∧ x.mark = true) ∨
        x.source_path ∈ passPaths ps) ∧
      pathsNodup dbf.photos ∧ idsNodup dbf.photos ∧
      (∀ a ∈ dbf.postsPhotos, ∃ m ∈ dbf.photos, m.id = a.photo_id ∧ m.mark = true) := by
  intro ps
  induction ps with
  | nil =>
    intro db rng ps2 rng2 dbf h hpN hiN hsafe hfresh hnodup
    simp only [buildPosts, Prod.mk.injEq] at h
    obtain ⟨hps, -, hout⟩ := h
    injection hout with hout
    subst hout
    subst hps
    refine ⟨?_, rfl, by simp, rfl, rfl, rfl, ?_, rfl, rfl, rfl, ?_, ?_, ?_, hpN, hiN, hsafe⟩
    · intro pd hpd
      exact absurd hpd (List.not_mem_nil pd)
    · show db.postsPhotos = db.postsPhotos ++ assocsOf db.photos []
      simp [assocsOf]
    · intro pfb hpfb
      exact absurd hpfb (List.not_mem_nil pfb)
    · intro q hq
      rfl
    · intro x hx hm
      exact Or.inl ⟨hx, hm⟩
  | cons p rest ih =>
    intro db rng ps2 rng2 dbf h hpN hiN hsafe hfresh hnodup
    have hnsplit : (PostDir.photoPaths p).Nodup ∧ (passPaths rest).Nodup ∧
        List.Disjoint (PostDir.photoPaths p) (passPaths rest) := by
      rw [passPaths_cons] at hnodup
      exact List.nodup_append.mp hnodup
    obtain ⟨hnd1, hnd2, hdisj⟩ := hnsplit
    unfold buildPosts at h
    split at h
    next p1 rng1 e heq =>
      simp only [Prod.mk.injEq] at h
      exact Except.noConfusion h.2.2
    next p1 rng1 db1 heq =>
      split at h
      next rest1 rng3 out heq2 =>
        simp only [Prod.mk.injEq] at h
        obtain ⟨hps, hrng, hout⟩ := h
        subst hps
        subst hrng
        subst hout
        obtain ⟨d1, d2, d3, d4, d5, d6, d7, d8, d9, d10, d11, d12, d13, d14, d15, d16,
            d17, d18, d19⟩ :=
          postNew_pass env cfg db p rng p1 rng1 db1 heq hpN hiN hsafe
            (fun x hx hm hmem => hfresh x hx hm
              (by rw [passPaths_cons]; exact List.mem_append_left _ hmem))
            hnd1
        have hpf : PostDir.photoFiles p1 = PostDir.photoFiles p := by
          unfold PostDir.photoFiles
          rw [d3, d4]
        have hppaths : PostDir.photoPaths p1 = PostDir.photoPaths p := by
          unfold PostDir.photoPaths
          rw [hpf]
        have hfresh1 : ∀ x ∈ db1.photos, x.mark = true → x.source_path ∉ passPaths rest := by
          intro x hx hm hmem
          rcases d16 x hx hm with ⟨hxdb, hxm⟩ | hxp
          · exact hfresh x hxdb hxm (by rw [passPaths_cons]; exact List.mem_append_right _ hmem)
          · exact hdisj hxp hmem
        obtain ⟨e1, e2, e3, e4, e5, e6, e7, e8, e9, e10, e11, e12, e13, e14, e15, e16⟩ :=
          ih db1 rng1 rest1 rng3 dbf heq2 d17 d18 d19 hfresh1 hnd2
        have cA : ∀ pd ∈ p1 :: rest1, PostDir.settled pd := by
          intro pd hpd
          rcases List.mem_cons.mp hpd with hpd | hpd
          · rw [hpd]
            exact d5
          · exact e1 pd hpd
        have cB : passPhotoFiles (p1 :: rest1) = passPhotoFiles (p :: rest) := by
          rw [passPhotoFiles_cons, passPhotoFiles_cons, hpf, e2]
        have cC : dbf.posts = db.posts ++ (p1 :: rest1).map postRowOfDir := by
          rw [e3, d6, List.map_cons, List.append_assoc]
          rfl
        have cD : dbf.tags = tagsFold db.tags (p1 :: rest1) := by
          show _ = tagsFold (db.tags.filter (fun t => t.post_id != p1.pid) ++
            (normTagsOf p1).map (fun tg => { post_id := p1.pid, tag := tg })) rest1
          rw [e4, d7]
        have hpair : (db1.assets, db1.postsAssets) =
            assetsFold db.assets db.postsAssets p1.pid p1.assets := by
          rw [d8, d9]
        have cE : dbf.assets = (assetsPassFold (db.assets, db.postsAssets) (p1 :: rest1)).1 := by
          show _ = (assetsPassFold (assetsFold db.assets db.postsAssets p1.pid p1.assets)
            rest1).1
          rw [e5, hpair]
        have cF : dbf.postsAssets =
            (assetsPassFold (db.assets, db.postsAssets) (p1 :: rest1)).2 := by
          show _ = (assetsPassFold (assetsFold db.assets db.postsAssets p1.pid p1.assets)
            rest1).2
          rw [e6, hpair]
        have hda : dirAssocs dbf.photos p1 = dirAssocs db1.photos p1 := by
          unfold dirAssocs
          apply List.map_congr_left
          intro pfb hpfb
          have hmem : pfb.1.path ∈ PostDir.photoPaths p := by
            rw [← hppaths]
            exact List.mem_map_of_mem _ hpfb
          have hnot : pfb.1.path ∉ passPaths rest := fun hc => hdisj hmem hc
          have hrow : rowAt dbf.photos pfb.1.path = rowAt db1.photos pfb.1.path :=
            e12 pfb.1.path hnot
          unfold idAt
          rw [hrow]
        have cG : dbf.postsPhotos = db.postsPhotos ++ assocsOf dbf.photos (p1 :: rest1) := by
          show _ = db.postsPhotos ++ (dirAssocs dbf.photos p1 ++ assocsOf dbf.photos rest1)
          rw [e7, d10, hda, List.append_assoc]
        have cJ : postsCheckFold db.posts (p1 :: rest1) = true := by
          show (!(db.posts.any (fun q => q.id == p1.pid)) &&
            postsCheckFold (db.posts ++ [postRowOfDir p1]) rest1) = true
          rw [d13, ← d6, e10]
          rfl
        have cK : ∀ pfb ∈ passPhotoFiles (p :: rest), ∃ s,
            rowAt dbf.photos pfb.1.path = some s ∧ s.mark = true ∧
            pfb.1.mtime ≤ s.source_time := by
          intro pfb hpfb
          rw [passPhotoFiles_cons] at hpfb
          rcases List.mem_append.mp hpfb with hq | hq
          · obtain ⟨s, hs, hsm, hst⟩ := d14 pfb hq
            have hpp : pfb.1.path ∈ PostDir.photoPaths p := List.mem_map_of_mem _ hq
            have hnot : pfb.1.path ∉ passPaths rest := fun hc => hdisj hpp hc
            exact ⟨s, (e12 pfb.1.path hnot).trans hs, hsm, hst⟩
          · exact e11 pfb hq
        have cL : ∀ q, q ∉ passPaths (p :: rest) →
            rowAt dbf.photos q = rowAt db.photos q := by
          intro q hq
          rw [passPaths_cons] at hq
          have h1 : q ∉ PostDir.photoPaths p := fun hc => hq (List.mem_append_left _ hc)
          have h2 : q ∉ passPaths rest := fun hc => hq (List.mem_append_right _ hc)
          exact (e12 q h2).trans (d15 q h1)
        have cM : ∀ x ∈ dbf.photos, x.mark = true → (x ∈ db.photos ∧ x.mark = true) ∨
            x.source_path ∈ passPaths (p :: rest) := by
          intro x hx hm
          rcases e13 x hx hm with ⟨hx1, hm1⟩ | hp1
          · rcases d16 x hx1 hm1 with ⟨hx0, hm0⟩ | hp0
            · exact Or.inl ⟨hx0, hm0⟩
            · exact Or.inr (by rw [passPaths_cons]; exact List.mem_append_left _ hp0)
          · exact Or.inr (by rw [passPaths_cons]; exact List.mem_append_right _ hp1)
        exact ⟨cA, cB, cC, cD, cE, cF, cG, e8.trans d11, e9.trans d12, cJ, cK, cL, cM,
          e14, e15, e16⟩

theorem DB.ext8 (a b : DB) (hposts : a.posts = b.posts) (htags : a.tags = b.tags)
    (hphotos : a.photos = b.photos) (hassets : a.assets = b.assets)
    (hfiles : a.files = b.files) (hpp : a.postsPhotos = b.postsPhotos)
    (hpa : a.postsAssets = b.postsAssets) (husers : a.users = b.users) : a = b := by
  rcases a with ⟨a1, a2, a3, a4, a5, a6, a7, a8⟩
  rcases b with ⟨b1, b2, b3, b4, b5, b6, b7, b8⟩
  simp only at hposts htags hphotos hassets hfiles hpp hpa husers
  subst hposts
  subst htags
  subst hphotos
  subst hassets
  subst hfiles
  subst hpp
  subst hpa
  subst husers
  rfl

theorem markIf_false (l : List PhotoRow) : markIf (fun _ => false) l = l := by
  unfold markIf
  simp

theorem unmark_map_path (l : List PhotoRow) :
    (l.map unmarkRow).map (fun r => r.source_path) = l.map (fun r => r.source_path) := by
  rw [List.map_map]
  rfl

theorem unmark_map_id (l : List PhotoRow) :
    (l.map unmarkRow).map (fun r => r.id) = l.map (fun r => r.id) := by
  rw [List.map_map]
  rfl

theorem pathsNodup_filter (l : List PhotoRow) (f : PhotoRow → Bool) (h : pathsNodup l) :
    pathsNodup (l.filter f) := by
  unfold pathsNodup at h ⊢
  exact List.Nodup.sublist ((List.filter_sublist l).map _) h

theorem idsNodup_filter (l : List PhotoRow) (f : PhotoRow → Bool) (h : idsNodup l) :
    idsNodup (l.filter f) := by
  unfold idsNodup at h ⊢
  exact List.Nodup.sublist ((List.filter_sublist l).map _) h

theorem unmark_mark_false (l : List PhotoRow) : ∀ x ∈ l.map unmarkRow, x.mark = false := by
  intro x hx
  obtain ⟨y, -, rfl⟩ := List.mem_map.mp hx
  rfl

/-- Re-marking all paths of an all-marked table after a global unmark
restores it exactly. -/
theorem markIf_restore (f : String → Bool) (l : List PhotoRow)
    (hmark : ∀ r ∈ l, r.mark = true) (hf : ∀ r ∈ l, f r.source_path = true) :
    markIf f (l.map unmarkRow) = l := by
  unfold markIf
  rw [List.map_map]
  have hone : ∀ r ∈ l,
      ((fun x => if f x.source_path then { x with mark := true } else x) ∘ unmarkRow) r =
        id r := by
    intro r hr
    show (if f (unmarkRow r).source_path then { unmarkRow r with mark := true }
      else unmarkRow r) = r
    have hc : f (unmarkRow r).source_path = true := hf r hr
    rw [if_pos hc]
    show ({ r with mark := true } : PhotoRow) = r
    rw [← hmark r hr]
  rw [List.map_congr_left hone, List.map_id]

theorem dirAssocs_unmark (l : List PhotoRow) (p : PostDir) :
    dirAssocs (l.map unmarkRow) p = dirAssocs l p := by
  unfold dirAssocs
  apply List.map_congr_left
  intro pfb _
  rw [idAt_unmark]

theorem assocsOf_unmark (l : List PhotoRow) (ps : List PostDir) :
    assocsOf (l.map unmarkRow) ps = assocsOf l ps := by
  unfold assocsOf
  apply congrArg
  apply List.map_congr_left
  intro p _
  exact dirAssocs_unmark l p

theorem dirAssocs_congr (A B : List PhotoRow) (p : PostDir)
    (h : ∀ q ∈ PostDir.photoPaths p, idAt A q = idAt B q) :
    dirAssocs A p = dirAssocs B p := by
  unfold dirAssocs
  apply List.map_congr_left
  intro pfb hpfb
  rw [h pfb.1.path (List.mem_map_of_mem _ hpfb)]

theorem assocsOf_congr (A B : List PhotoRow) :
    ∀ (ps : List PostDir), (∀ q ∈ passPaths ps, idAt A q = idAt B q) →
      assocsOf A ps = assocsOf B ps := by
  intro ps
  induction ps with
  | nil => intro _; rfl
  | cons p rest ih =>
    intro h
    show dirAssocs A p ++ assocsOf A rest = dirAssocs B p ++ assocsOf B rest
    rw [dirAssocs_congr A B p
        (fun q hq => h q (by rw [passPaths_cons]; exact List.mem_append_left _ hq)),
      ih (fun q hq => h q (by rw [passPaths_cons]; exact List.mem_append_right _ hq))]

theorem any_path_map (l : List PhotoFile) (q : String) :
    (l.map (fun pf => pf.path)).any (fun z => z == q) = l.any (fun pf => pf.path == q) := by
  induction l with
  | nil => rfl
  | cons a rest ih =>
    simp only [List.map_cons, List.any_cons, ih]

/-- The whole-record form of the asset loop: only the styles and
posts_assets tables change. -/
theorem insertPostAssets_record (pid : String) :
    ∀ (as : List AssetFile) (dbx : DB),
      insertPostAssets dbx pid as = { dbx with assets := (assetsFold dbx.assets dbx.postsAssets pid as).1, postsAssets := (assetsFold dbx.assets dbx.postsAssets pid as).2 } := by
  intro as
  induction as with
  | nil =>
    intro dbx
    rfl
  | cons a rest ih =>
    intro dbx
    show insertPostAssets _ pid rest = _
    rw [ih]
    rfl

/-- The database half of `Post::new` on a fresh tree: when every photo file
finds an up-to-date row in the base table and the post id is free, the call
succeeds and the whole resulting state is the closed form below. -/
theorem postInsertAll_fresh (env : Env) (cfg : Config) (db : DB) (pid : String)
    (meta : PostMetadata) (source : String) (p : PostDir) (m : String → Bool)
    (base : List PhotoRow)
    (hphotos : db.photos = markIf m base)
    (hpB : pathsNodup base) (hiB : idsNodup base)
    (hall : ∀ pfb ∈ PostDir.photoFiles p, ∃ b, rowAt base pfb.1.path = some b ∧
      pfb.1.mtime ≤ b.source_time)
    (hpk : (db.posts.any (fun q => q.id == pid)) = false) :
    postInsertAll env cfg db pid meta source p = .ok
      { posts := db.posts ++ [newPostRow pid meta source],
        tags := db.tags.filter (fun t => t.post_id != pid) ++
          (meta.tags.map normalizeTag).map (fun tg => { post_id := pid, tag := tg }),
        photos := markIf (fun q => m q ||
          (PostDir.photoPaths p).any (fun x => x == q)) base,
        assets := (assetsFold db.assets db.postsAssets pid p.assets).1,
        files := db.files,
        postsPhotos := db.postsPhotos ++ (PostDir.photoFiles p).map
          (fun pfb => { post_id := pid, photo_id := idAt base pfb.1.path }),
        postsAssets := (assetsFold db.assets db.postsAssets pid p.assets).2,
        users := db.users } := by
  have hallpub : ∀ pf ∈ p.publicPhotos, ∃ b, rowAt base pf.path = some b ∧
      pf.mtime ≤ b.source_time := by
    intro pf hpf
    exact hall (pf, false) (List.mem_append_left _ (List.mem_map_of_mem _ hpf))
  have hallpriv : ∀ pf ∈ p.privatePhotos, ∃ b, rowAt base pf.path = some b ∧
      pf.mtime ≤ b.source_time := by
    intro pf hpf
    exact hall (pf, true) (List.mem_append_right _ (List.mem_map_of_mem _ hpf))
  have hB : insertPostPhotos env cfg
      (insertPostAssets { db with posts := db.posts ++ [newPostRow pid meta source] } pid p.assets)
      pid false p.publicPhotos = .ok
      { posts := db.posts ++ [newPostRow pid meta source],
        tags := db.tags,
        photos := markIf (fun q => m q || p.publicPhotos.any (fun pf => pf.path == q)) base,
        assets := (assetsFold db.assets db.postsAssets pid p.assets).1,
        files := db.files,
        postsPhotos := db.postsPhotos ++
          p.publicPhotos.map (fun pf => { post_id := pid, photo_id := idAt base pf.path }),
        postsAssets := (assetsFold db.assets db.postsAssets pid p.assets).2,
        users := db.users } := by
    rw [insertPostAssets_record pid p.assets
      { db with posts := db.posts ++ [newPostRow pid meta source] }]
    exact insertPostPhotos_fresh env cfg pid false p.publicPhotos
      { db with
        posts := db.posts ++ [newPostRow pid meta source],
        assets := (assetsFold db.assets db.postsAssets pid p.assets).1,
        postsAssets := (assetsFold db.assets db.postsAssets pid p.assets).2 }
      m base hphotos hpB hiB hallpub
  have hC : insertPostPhotos env cfg
      { posts := db.posts ++ [newPostRow pid meta source],
        tags := db.tags,
        photos := markIf (fun q => m q || p.publicPhotos.any (fun pf => pf.path == q)) base,
        assets := (assetsFold db.assets db.postsAssets pid p.assets).1,
        files := db.files,
        postsPhotos := db.postsPhotos ++
          p.publicPhotos.map (fun pf => { post_id := pid, photo_id := idAt base pf.path }),
        postsAssets := (assetsFold db.assets db.postsAssets pid p.assets).2,
        users := db.users } pid true p.privatePhotos = .ok
      { posts := db.posts ++ [newPostRow pid meta source],
        tags := db.tags,
        photos := markIf (fun q => (m q || p.publicPhotos.any (fun pf => pf.path == q)) ||
          p.privatePhotos.any (fun pf => pf.path == q)) base,
        assets := (assetsFold db.assets db.postsAssets pid p.assets).1,
        files := db.files,
        postsPhotos := db.postsPhotos ++
          p.publicPhotos.map (fun pf => { post_id := pid, photo_id := idAt base pf.path }) ++
          p.privatePhotos.map (fun pf => { post_id := pid, photo_id := idAt base pf.path }),
        postsAssets := (assetsFold db.assets db.postsAssets pid p.assets).2,
        users := db.users } := by
    exact insertPostPhotos_fresh env cfg pid true p.privatePhotos
      { posts := db.posts ++ [newPostRow pid meta source],
        tags := db.tags,
        photos := markIf (fun q => m q || p.publicPhotos.any (fun pf => pf.path == q)) base,
        assets := (assetsFold db.assets db.postsAssets pid p.assets).1,
        files := db.files,
        postsPhotos := db.postsPhotos ++
          p.publicPhotos.map (fun pf => { post_id := pid, photo_id := idAt base pf.path }),
        postsAssets := (assetsFold db.assets db.postsAssets pid p.assets).2,
        users := db.users }
      (fun q => m q || p.publicPhotos.any (fun pf => pf.path == q)) base rfl hpB hiB hallpriv
  unfold postInsertAll
  rw [hpk, if_neg (show ¬(false = true) by decide), hB]
  dsimp only
  rw [hC]
  dsimp only
  apply congrArg
  unfold Post.set_tags
  refine DB.ext8 _ _ rfl rfl ?_ rfl rfl ?_ rfl rfl
  · show markIf (fun q => (m q || p.publicPhotos.any (fun pf => pf.path == q)) ||
      p.privatePhotos.any (fun pf => pf.path == q)) base =
      markIf (fun q => m q || (PostDir.photoPaths p).any (fun x => x == q)) base
    apply markIf_congr
    intro x _
    dsimp only
    rw [photoPaths_eq, List.any_append, any_path_map, any_path_map, Bool.or_assoc]
  · show db.postsPhotos ++
      p.publicPhotos.map (fun pf => { post_id := pid, photo_id := idAt base pf.path }) ++
      p.privatePhotos.map (fun pf => { post_id := pid, photo_id := idAt base pf.path }) =
      db.postsPhotos ++ (PostDir.photoFiles p).map
        (fun pfb => { post_id := pid, photo_id := idAt base pfb.1.path })
    rw [List.append_assoc]
    apply congrArg
    show _ = (p.publicPhotos.map (fun pf => (pf, false)) ++
      p.privatePhotos.map (fun pf => (pf, true))).map
        (fun pfb => { post_id := pid, photo_id := idAt base pfb.1.path })
    rw [List.map_append, List.map_map, List.map_map]
    rfl

/-- `Post::new` on a settled directory of a fresh tree: the directory and
random stream come back unchanged and the database outcome is the closed
form of `postInsertAll_fresh`, phrased over the directory. -/
theorem postNew_fresh (env : Env) (cfg : Config) (db : DB) (p : PostDir) (rng : Nat)
    (m : String → Bool) (base : List PhotoRow)
    (hset : PostDir.settled p)
    (hphotos : db.photos = markIf m base)
    (hpB : pathsNodup base) (hiB : idsNodup base)
    (hall : ∀ pfb ∈ PostDir.photoFiles p, ∃ b, rowAt base pfb.1.path = some b ∧
      pfb.1.mtime ≤ b.source_time)
    (hpk : (db.posts.any (fun q => q.id == p.pid)) = false) :
    Post.new env cfg db p rng = (p, rng, .ok
      { posts := db.posts ++ [postRowOfDir p],
        tags := db.tags.filter (fun t => t.post_id != p.pid) ++
          (normTagsOf p).map (fun tg => { post_id := p.pid, tag := tg }),
        photos := markIf (fun q => m q ||
          (PostDir.photoPaths p).any (fun x => x == q)) base,
        assets := (assetsFold db.assets db.postsAssets p.pid p.assets).1,
        files := db.files,
        postsPhotos := db.postsPhotos ++ (PostDir.photoFiles p).map
          (fun pfb => { post_id := p.pid, photo_id := idAt base pfb.1.path }),
        postsAssets := (assetsFold db.assets db.postsAssets p.pid p.assets).2,
        users := db.users }) := by
  obtain ⟨⟨src, hcontent⟩, meta0, hmeta0, i, hid⟩ := hset
  have hpid : p.pid = i := by
    simp [PostDir.pid, hmeta0, hid]
  have hmeta : p.meta = meta0 := by
    simp [PostDir.meta, hmeta0]
  have hrow : postRowOfDir p = newPostRow i meta0 src := by
    unfold postRowOfDir
    rw [hpid, hmeta, hcontent]
    rfl
  have htags : normTagsOf p = meta0.tags.map normalizeTag := by
    unfold normTagsOf
    rw [hmeta]
  unfold Post.new
  rw [hcontent]
  dsimp only
  rw [hmeta0]
  dsimp only
  rw [hid]
  dsimp only
  refine congrArg (fun z => (p, rng, z)) ?_
  rw [hrow, hpid, htags]
  exact postInsertAll_fresh env cfg db i meta0 src p m base hphotos hpB hiB hall
    (by rw [← hpid]; exact hpk)

/-- The posts pass on a fresh tree of settled directories: the directories
and random stream come back unchanged, the pass succeeds, and every table is
the same closed form the first pass produced, with the photo table merely
re-marked over the base. -/
theorem buildPosts_fresh (env : Env) (cfg : Config) :
    ∀ (ps : List PostDir) (db : DB) (rng : Nat) (m : String → Bool) (base : List PhotoRow),
      db.photos = markIf m base →
      pathsNodup base → idsNodup base →
      (∀ pd ∈ ps, PostDir.settled pd) →
      (∀ pfb ∈ passPhotoFiles ps, ∃ b, rowAt base pfb.1.path = some b ∧
        pfb.1.mtime ≤ b.source_time) →
      postsCheckFold db.posts ps = true →
      buildPosts env cfg db ps rng = (ps, rng, .ok
        { posts := db.posts ++ ps.map postRowOfDir,
          tags := tagsFold db.tags ps,
          photos := markIf (fun q => m q || (passPaths ps).any (fun x => x == q)) base,
          assets := (assetsPassFold (db.assets, db.postsAssets) ps).1,
          files := db.files,
          postsPhotos := db.postsPhotos ++ assocsOf base ps,
          postsAssets := (assetsPassFold (db.assets, db.postsAssets) ps).2,
          users := db.users }) := by
  intro ps
  induction ps with
  | nil =>
    intro db rng m base hphotos hpB hiB hset hall hcheck
    have hdb : db =
        { posts := db.posts ++ ([] : List PostDir).map postRowOfDir,
          tags := tagsFold db.tags [],
          photos := markIf (fun q => m q || (passPaths []).any (fun x => x == q)) base,
          assets := (assetsPassFold (db.assets, db.postsAssets) []).1,
          files := db.files,
          postsPhotos := db.postsPhotos ++ assocsOf base [],
          postsAssets := (assetsPassFold (db.assets, db.postsAssets) []).2,
          users := db.users } := by
      refine DB.ext8 _ _ (by simp) rfl ?_ rfl rfl (by simp [assocsOf]) rfl rfl
      rw [hphotos]
      show markIf m base =
        markIf (fun q => m q || (passPaths ([] : List PostDir)).any (fun x => x == q)) base
      apply markIf_congr
      intro x _
      show m x.source_path =
        (m x.source_path || (passPaths ([] : List PostDir)).any (fun z => z == x.source_path))
      have hnil : passPaths ([] : List PostDir) = [] := rfl
      rw [hnil, List.any_nil, Bool.or_false]
    show ([], rng, Except.ok db) = _
    exact congrArg (fun z => (([] : List PostDir), rng, Except.ok z)) hdb
  | cons p rest ih =>
    intro db rng m base hphotos hpB hiB hset hall hcheck
    have hcheck' : (!(db.posts.any (fun q => q.id == p.pid)) &&
        postsCheckFold (db.posts ++ [postRowOfDir p]) rest) = true := hcheck
    rw [Bool.and_eq_true] at hcheck'
    obtain ⟨hpkneg, hcheckrest⟩ := hcheck'
    have hpk : (db.posts.any (fun q => q.id == p.pid)) = false := by
      rcases hq : db.posts.any (fun q => q.id == p.pid)
      · rfl
      · rw [hq] at hpkneg
        exact absurd hpkneg (by decide)
    have hstep := postNew_fresh env cfg db p rng m base (hset p (List.mem_cons_self p rest))
      hphotos hpB hiB
      (fun pfb hpfb => hall pfb (by rw [passPhotoFiles_cons]; exact List.mem_append_left _ hpfb))
      hpk
    unfold buildPosts
    rw [hstep]
    dsimp only
    rw [ih _ rng (fun q => m q || (PostDir.photoPaths p).any (fun x => x == q)) base rfl
      hpB hiB (fun pd hpd => hset pd (List.mem_cons_of_mem p hpd))
      (fun pfb hpfb => hall pfb
        (by rw [passPhotoFiles_cons]; exact List.mem_append_right _ hpfb))
      hcheckrest]
    dsimp only
    refine congrArg (fun z => (p :: rest, rng, Except.ok z)) (DB.ext8 _ _ ?_ rfl ?_ rfl rfl ?_ rfl rfl)
    · show db.posts ++ [postRowOfDir p] ++ rest.map postRowOfDir = _
      rw [List.append_assoc]
      rfl
    · show markIf (fun q => (m q || (PostDir.photoPaths p).any (fun x => x == q)) ||
          (passPaths rest).any (fun x => x == q)) base =
        markIf (fun q => m q || (passPaths (p :: rest)).any (fun x => x == q)) base
      apply markIf_congr
      intro x _
      dsimp only
      rw [passPaths_cons, List.any_append, Bool.or_assoc]
    · show db.postsPhotos ++ (PostDir.photoFiles p).map
          (fun pfb => { post_id := p.pid, photo_id := idAt base pfb.1.path }) ++
          assocsOf base rest = _
      rw [List.append_assoc]
      rfl

theorem tagsFold_refs : ∀ (ps : List PostDir) (acc : List TagRow) (t : TagRow),
    t ∈ tagsFold acc ps → t ∈ acc ∨ ∃ p ∈ ps, t.post_id = p.pid := by
  intro ps
  induction ps with
  | nil =>
    intro acc t ht
    exact Or.inl ht
  | cons p rest ih =>
    intro acc t ht
    rcases ih _ t ht with hmem | ⟨q, hq, hqid⟩
    · rcases List.mem_append.mp hmem with hacc | hnew
      · exact Or.inl (List.mem_of_mem_filter hacc)
      · obtain ⟨tg, -, rfl⟩ := List.mem_map.mp hnew
        exact Or.inr ⟨p, List.mem_cons_self p rest, rfl⟩
    · exact Or.inr ⟨q, List.mem_cons_of_mem p hq, hqid⟩

theorem assetsFold_refs (pid : String) : ∀ (as : List AssetFile) (ast : List AssetRow)
    (pa : List PostAssetRow) (a : PostAssetRow),
    a ∈ (assetsFold ast pa pid as).2 → a ∈ pa ∨ a.post_id = pid := by
  intro as
  induction as with
  | nil =>
    intro ast pa a ha
    exact Or.inl ha
  | cons x rest ih =>
    intro ast pa a ha
    rcases ih _ _ a ha with hmem | hp
    · rcases List.mem_append.mp hmem with h1 | h2
      · exact Or.inl h1
      · rcases List.mem_cons.mp h2 with h3 | h4
        · rw [h3]
          exact Or.inr rfl
        · exact absurd h4 (List.not_mem_nil a)
    · exact Or.inr hp

theorem assetsPassFold_refs : ∀ (ps : List PostDir) (st : List AssetRow × List PostAssetRow)
    (a : PostAssetRow), a ∈ (assetsPassFold st ps).2 →
    a ∈ st.2 ∨ ∃ p ∈ ps, a.post_id = p.pid := by
  intro ps
  induction ps with
  | nil =>
    intro st a ha
    exact Or.inl ha
  | cons p rest ih =>
    intro st a ha
    rcases ih _ a ha with hmem | ⟨q, hq, hid⟩
    · rcases assetsFold_refs p.pid p.assets st.1 st.2 a hmem with h1 | h2
      · exact Or.inl h1
      · exact Or.inr ⟨p, List.mem_cons_self p rest, h2⟩
    · exact Or.inr ⟨q, List.mem_cons_of_mem p hq, hid⟩

theorem assocsOf_refs (photos : List PhotoRow) : ∀ (ps : List PostDir) (a : PostPhotoRow),
    a ∈ assocsOf photos ps → ∃ p ∈ ps, a.post_id = p.pid := by
  intro ps a ha
  unfold assocsOf at ha
  rw [List.mem_flatten] at ha
  obtain ⟨l, hl, hal⟩ := ha
  rw [List.mem_map] at hl
  obtain ⟨p, hp, rfl⟩ := hl
  refine ⟨p, hp, ?_⟩
  unfold dirAssocs at hal
  obtain ⟨pfb, -, rfl⟩ := List.mem_map.mp hal
  rfl

/-- Master description of one successful rebuild from a well-formed store
and source tree: the returned tree is settled with the same photo files,
every table of the final state has a closed form over the settled
directories, and the surviving photo table is exactly the marked rows of
the pass. -/
theorem build_master (env : Env) (cfg : Config) (tree : Tree) (db : DB) (rng : Nat)
    (tree1 : Tree) (rng1 : Nat) (db1 : DB)
    (hwf : DB.wf db) (htree : Tree.wf tree)
    (h : build env cfg tree db rng = (tree1, rng1, .ok db1)) :
    tree1.files = tree.files ∧
    (∀ pd ∈ tree1.posts, PostDir.settled pd) ∧
    passPhotoFiles tree1.posts = passPhotoFiles tree.posts ∧
    db1.posts = tree1.posts.map postRowOfDir ∧
    db1.tags = tagsFold [] tree1.posts ∧
    db1.assets = (assetsPassFold ([], []) tree1.posts).1 ∧
    db1.postsAssets = (assetsPassFold ([], []) tree1.posts).2 ∧
    db1.postsPhotos = assocsOf db1.photos tree1.posts ∧
    db1.files = insertFilesList [] tree.files ∧
    db1.users = cfg.users.map
      (fun u => { key_hash := keyHash env u.key, group_name := u.group }) ∧
    postsCheckFold [] tree1.posts = true ∧
    (∀ pfb ∈ passPhotoFiles tree.posts, ∃ s, rowAt db1.photos pfb.1.path = some s ∧
      s.mark = true ∧ pfb.1.mtime ≤ s.source_time) ∧
    (∀ r ∈ db1.photos, r.mark = true) ∧
    (∀ r ∈ db1.photos, r.source_path ∈ passPaths tree.posts) ∧
    pathsNodup db1.photos ∧ idsNodup db1.photos ∧
    (∀ a ∈ db1.postsPhotos, ∃ mm ∈ db1.photos, mm.id = a.photo_id ∧ mm.mark = true) ∧
    insertUsersList env [] cfg.users = .ok (cfg.users.map
      (fun u => { key_hash := keyHash env u.key, group_name := u.group })) := by
  unfold build buildRest at h
  rw [clear_of_wf db hwf] at h
  dsimp only at h
  split at h
  next e heqU =>
    simp only [Prod.mk.injEq] at h
    exact Except.noConfusion h.2.2
  next users1 heqU =>
    split at h
    next posts1 rngx e heqB =>
      simp only [Prod.mk.injEq] at h
      exact Except.noConfusion h.2.2
    next posts1 rngx db3 heqB =>
      simp only [Prod.mk.injEq] at h
      obtain ⟨htree1, hrng1, hout⟩ := h
      injection hout with hout
      subst htree1
      subst hrng1
      subst hout
      have husers : users1 = cfg.users.map
          (fun u => { key_hash := keyHash env u.key, group_name := u.group }) := by
        have h0 := insertUsersList_ok env cfg.users [] users1 heqU
        rw [List.nil_append] at h0
        exact h0
      obtain ⟨p1, p2, p3, p4, p5, p6, p7, p8, p9, p10, p11, p12, p13, p14, p15, p16⟩ :=
        buildPosts_pass env cfg tree.posts _ rng posts1 rngx db3 heqB
          (by
            show pathsNodup (db.photos.map unmarkRow)
            unfold pathsNodup
            rw [unmark_map_path]
            exact hwf.2.2.2.1)
          (by
            show idsNodup (db.photos.map unmarkRow)
            unfold idsNodup
            rw [unmark_map_id]
            exact hwf.2.2.2.2)
          (fun a ha => absurd ha (List.not_mem_nil a))
          (by
            intro x hx hm
            rw [unmark_mark_false db.photos x hx] at hm
            exact absurd hm (by decide))
          htree
      have hphotos1 : (deleteUnmarkedPhotos db3).photos =
          db3.photos.filter (fun r => r.mark) := sweep_photos db3
      have hassocs1 : (deleteUnmarkedPhotos db3).postsPhotos = db3.postsPhotos :=
        sweep_assocs db3 ⟨p14, p15, p16⟩
      have hK : ∀ pfb ∈ passPhotoFiles tree.posts, ∃ s,
          rowAt (deleteUnmarkedPhotos db3).photos pfb.1.path = some s ∧
          s.mark = true ∧ pfb.1.mtime ≤ s.source_time := by
        intro pfb hpfb
        obtain ⟨s, hs, hsm, hst⟩ := p11 pfb hpfb
        exact ⟨s, rowAt_filter_marked db3.photos pfb.1.path s p14 hs hsm, hsm, hst⟩
      have hMarked : ∀ r ∈ (deleteUnmarkedPhotos db3).photos, r.mark = true := by
        intro r hr
        have hr2 := List.mem_filter.mp hr
        exact hr2.2
      have hSrc : ∀ r ∈ (deleteUnmarkedPhotos db3).photos,
          r.source_path ∈ passPaths tree.posts := by
        intro r hr
        have hr2 := List.mem_filter.mp hr
        rcases p13 r hr2.1 hr2.2 with ⟨hrm, hmm⟩ | hp
        · rw [unmark_mark_false db.photos r hrm] at hmm
          exact absurd hmm (by decide)
        · exact hp
      have hpaths1 : passPaths posts1 = passPaths tree.posts := by
        unfold passPaths
        rw [p2]
      have hidstable : ∀ q ∈ passPaths posts1,
          idAt db3.photos q = idAt (deleteUnmarkedPhotos db3).photos q := by
        intro q hq
        rw [hpaths1] at hq
        obtain ⟨pfb, hpfb, hpfbq⟩ := List.mem_map.mp hq
        obtain ⟨s, hs, hsm, -⟩ := p11 pfb hpfb
        unfold idAt
        rw [hpfbq] at hs
        rw [hphotos1, hs, rowAt_filter_marked db3.photos q s p14 hs hsm]
      refine ⟨rfl, p1, p2, ?_, ?_, ?_, ?_, ?_, ?_, ?_, p10, hK, hMarked, hSrc,
        pathsNodup_filter db3.photos _ p14, idsNodup_filter db3.photos _ p15, ?_, ?_⟩
      · exact ((sweep_fields db3).1).trans p3
      · exact ((sweep_fields db3).2.1).trans p4
      · exact ((sweep_fields db3).2.2.1).trans p5
      · exact ((sweep_fields db3).2.2.2.2.2).trans p6
      · rw [hassocs1, p7]
        show assocsOf db3.photos posts1 = _
        exact assocsOf_congr db3.photos (deleteUnmarkedPhotos db3).photos posts1 hidstable
      · exact ((sweep_fields db3).2.2.2.1).trans p8
      · rw [(sweep_fields db3).2.2.2.2.1, p9]
        exact husers
      · intro a ha
        rw [hassocs1] at ha
        obtain ⟨mm, hm, hmid, hmmark⟩ := p16 a ha
        exact ⟨mm, List.mem_filter.mpr ⟨hm, hmmark⟩, hmid, hmmark⟩
      · rw [husers] at heqU
        exact heqU

/-- C1: running the rebuild twice in a row against an unchanged source tree
is idempotent. Starting from a well-formed store and source tree, if the
first run returns the settled tree `tree1`, stream position `rng1` and state
`db1`, the second run over the same (now settled) tree returns exactly the
same tree, stream position and state: byte-identical photo renditions and
identical row sets in every table, with no extra inserts or deletes. -/
theorem build_idempotent (env : Env) (cfg : Config) (tree : Tree) (db : DB) (rng : Nat)
    (tree1 : Tree) (rng1 : Nat) (db1 : DB)
    (hwf : DB.wf db) (htree : Tree.wf tree)
    (h : build env cfg tree db rng = (tree1, rng1, .ok db1)) :
    build env cfg tree1 db1 rng1 = (tree1, rng1, .ok db1) := by
  obtain ⟨c1, c2, c3, c4, c5, c6, c7, c8, c9, c10, c11, c12, c13, c14, c15a, c15b, c16, c17⟩ :=
    build_master env cfg tree db rng tree1 rng1 db1 hwf htree h
  have hwf1 : DB.wf db1 := by
    refine ⟨?_, ?_, ?_, c15a, c15b⟩
    · intro t ht
      rw [c5] at ht
      rcases tagsFold_refs tree1.posts [] t ht with hnil | ⟨p, hp, hpid⟩
      · exact absurd hnil (List.not_mem_nil t)
      · refine ⟨postRowOfDir p, ?_, ?_⟩
        · rw [c4]
          exact List.mem_map_of_mem _ hp
        · rw [hpid]
          rfl
    · intro a ha
      rw [c8] at ha
      obtain ⟨p, hp, hpid⟩ := assocsOf_refs db1.photos tree1.posts a ha
      refine ⟨postRowOfDir p, ?_, ?_⟩
      · rw [c4]
        exact List.mem_map_of_mem _ hp
      · rw [hpid]
        rfl
    · intro a ha
      rw [c7] at ha
      rcases assetsPassFold_refs tree1.posts ([], []) a ha with hnil | ⟨p, hp, hpid⟩
      · exact absurd hnil (List.not_mem_nil a)
      · refine ⟨postRowOfDir p, ?_, ?_⟩
        · rw [c4]
          exact List.mem_map_of_mem _ hp
        · rw [hpid]
          rfl
  have htree1 : Tree.wf tree1 := by
    show (passPaths tree1.posts).Nodup
    unfold passPaths
    rw [c3]
    exact htree
  have hrestore : markIf (fun q => (passPaths tree1.posts).any (fun x => x == q))
      (db1.photos.map unmarkRow) = db1.photos := by
    apply markIf_restore
    · exact c13
    · intro r hr
      have hmem : r.source_path ∈ passPaths tree1.posts := by
        unfold passPaths
        rw [c3]
        exact c14 r hr
      exact List.any_eq_true.mpr ⟨r.source_path, hmem, by simp⟩
  have hCLEANeq : (
      { posts := tree1.posts.map postRowOfDir,
        tags := tagsFold [] tree1.posts,
        photos := markIf (fun q => (passPaths tree1.posts).any (fun x => x == q))
          (db1.photos.map unmarkRow),
        assets := (assetsPassFold ([], []) tree1.posts).1,
        files := insertFilesList [] tree1.files,
        postsPhotos := assocsOf (db1.photos.map unmarkRow) tree1.posts,
        postsAssets := (assetsPassFold ([], []) tree1.posts).2,
        users := cfg.users.map
          (fun u => { key_hash := keyHash env u.key, group_name := u.group }) } : DB) = db1 := by
    refine DB.ext8 _ _ c4.symm c5.symm hrestore c6.symm ?_ ?_ c7.symm c10.symm
    · show insertFilesList [] tree1.files = db1.files
      rw [c1]
      exact c9.symm
    · show assocsOf (db1.photos.map unmarkRow) tree1.posts = db1.postsPhotos
      rw [assocsOf_unmark]
      exact c8.symm
  have hsweepdb1 : deleteUnmarkedPhotos db1 = db1 := by
    refine DB.ext8 _ _ (sweep_fields db1).1 (sweep_fields db1).2.1 ?_
      (sweep_fields db1).2.2.1 (sweep_fields db1).2.2.2.1
      (sweep_assocs db1 ⟨c15a, c15b, c16⟩) (sweep_fields db1).2.2.2.2.2
      (sweep_fields db1).2.2.2.2.1
    rw [sweep_photos]
    exact List.filter_eq_self.mpr c13
  have hchain : deleteUnmarkedPhotos (
      { posts := tree1.posts.map postRowOfDir,
        tags := tagsFold [] tree1.posts,
        photos := markIf (fun q => (passPaths tree1.posts).any (fun x => x == q))
          (db1.photos.map unmarkRow),
        assets := (assetsPassFold ([], []) tree1.posts).1,
        files := insertFilesList [] tree1.files,
        postsPhotos := assocsOf (db1.photos.map unmarkRow) tree1.posts,
        postsAssets := (assetsPassFold ([], []) tree1.posts).2,
        users := cfg.users.map
          (fun u => { key_hash := keyHash env u.key, group_name := u.group }) } : DB) = db1 := by
    rw [hCLEANeq]
    exact hsweepdb1
  have hbp := buildPosts_fresh env cfg tree1.posts
    { posts := [], tags := [], photos := db1.photos.map unmarkRow, assets := [],
      files := insertFilesList [] tree1.files, postsPhotos := [], postsAssets := [],
      users := cfg.users.map
        (fun u => { key_hash := keyHash env u.key, group_name := u.group }) }
    rng1 (fun _ => false) (db1.photos.map unmarkRow)
    (markIf_false (db1.photos.map unmarkRow)).symm
    (by
      unfold pathsNodup
      rw [unmark_map_path]
      exact c15a)
    (by
      unfold idsNodup
      rw [unmark_map_id]
      exact c15b)
    c2
    (by
      intro pfb hpfb
      rw [c3] at hpfb
      obtain ⟨s, hs, -, hst⟩ := c12 pfb hpfb
      refine ⟨unmarkRow s, ?_, hst⟩
      rw [rowAt_unmark, hs]
      rfl)
    c11
  unfold build buildRest
  rw [clear_of_wf db1 hwf1]
  dsimp only
  rw [c17]
  dsimp only
  rw [hbp]
  dsimp only
  exact congrArg (fun z => (tree1, rng1, Except.ok z)) hchain

/-- C3: mark/sweep correctness over one full rebuild from a well-formed
store against a well-formed source tree: unmark all photos at the start,
mark or freshly insert each photo encountered during the posts pass, delete
unmarked at the end — a photo row survives the rebuild if and only if its
source path was encountered during that pass. In particular a photo file
removed from the source tree has no surviving row. -/
theorem photo_mark_sweep (env : Env) (cfg : Config) (tree : Tree) (db : DB) (rng : Nat)
    (tree1 : Tree) (rng1 : Nat) (db1 : DB)
    (hwf : DB.wf db) (htree : Tree.wf tree)
    (h : build env cfg tree db rng = (tree1, rng1, .ok db1)) :
    ∀ path, (∃ r ∈ db1.photos, r.source_path = path) ↔ path ∈ passPaths tree.posts := by
  obtain ⟨-, -, -, -, -, -, -, -, -, -, -, c12, -, c14, -, -, -, -⟩ :=
    build_master env cfg tree db rng tree1 rng1 db1 hwf htree h
  intro path
  constructor
  · rintro ⟨r, hr, rfl⟩
    exact c14 r hr
  · intro hp
    obtain ⟨pfb, hpfb, hpfbq⟩ := List.mem_map.mp hp
    obtain ⟨s, hs, -, -⟩ := c12 pfb hpfb
    rw [hpfbq] at hs
    exact ⟨s, rowAt_some_mem hs, rowAt_some_path hs⟩

/-- Environment for the whole-rebuild witnesses: a decodable 4×3 image, a
collision-free path hash, and a resizer whose output ignores the requested
dimensions (keeping every rendition byte kernel-computable). -/
def envR : Env :=
  { hashString := fun s => s.data.foldl (fun a c => a * 31 + c.toNat) 7,
    rand := fun n => n + 100,
    decode := fun b => if b.isEmpty then none else some ⟨4, 3, b.length⟩,
    resize := fun i _ _ _ => ⟨1, 1, i.content + 1⟩,
    encodeJpeg := fun i q => [i.width, i.height, i.content, q] }

/-- Configuration for the whole-rebuild witnesses. -/
def cfgR : Config := { photo_max_preview_size := 2, photo_quality := 80, users := [⟨"k", "g"⟩] }

/-- A settled post directory with one public and one private photo. -/
def dirR : PostDir :=
  { content := some "body",
    metadata := some
      { id := some "deadbeefdeadbeef", title := "T", description := none,
        date := "2024-01-01", tags := ["A b"], permalink := none },
    assets := [⟨"s.css", [9]⟩],
    publicPhotos := [{ path := "p1/photo/a.jpg", mtime := 10, bytes := [1, 2, 3] }],
    privatePhotos := [{ path := "p1/photo/b.jpg", mtime := 5, bytes := [1, 2] }] }

/-- Source tree for the whole-rebuild witnesses. -/
def treeR : Tree := { files := [⟨"styles", "m.css", [7]⟩], posts := [dirR] }

/-- Starting store for the whole-rebuild witnesses: one stale photo row
whose source path no longer exists in the tree. -/
def dbR : DB :=
  ⟨[], [],
    [{ id := "aa", mark := true, is_private := false, source_path := "gone.jpg",
       source_time := 3, image_large_jpg := [], image_small_jpg := [] }],
    [], [], [], [], []⟩

/-- The first rebuild of the witness scenario. -/
def runR : Tree × Nat × Except BuildError DB := build envR cfgR treeR dbR 0

/-- The settled tree the first witness rebuild returns. -/
def treeR1 : Tree := runR.1

/-- The stream position the first witness rebuild returns. -/
def rngR1 : Nat := runR.2.1

/-- The store the first witness rebuild produces. -/
def dbR1 : DB := runR.2.2.toOption.getD dbR

/-- Witness for C1: on the concrete scenario the second rebuild returns
exactly the first rebuild's tree, stream position and store. -/
theorem build_idempotent_witness :
    build envR cfgR treeR1 dbR1 rngR1 = (treeR1, rngR1, .ok dbR1) :=
  build_idempotent envR cfgR treeR dbR 0 treeR1 rngR1 dbR1 (by decide) (by decide) (by rfl)

/-- Witness for C3: on the concrete scenario the stale path's row is swept
exactly because the path is absent from the tree, and the encountered path
keeps a row exactly because it is present. -/
theorem photo_mark_sweep_witness :
    ((∃ r ∈ dbR1.photos, r.source_path = "gone.jpg") ↔
      "gone.jpg" ∈ passPaths treeR.posts) ∧
    ((∃ r ∈ dbR1.photos, r.source_path = "p1/photo/a.jpg") ↔
      "p1/photo/a.jpg" ∈ passPaths treeR.posts) :=
  ⟨photo_mark_sweep envR cfgR treeR dbR 0 treeR1 rngR1 dbR1 (by decide) (by decide)
      (by rfl) "gone.jpg",
    photo_mark_sweep envR cfgR treeR dbR 0 treeR1 rngR1 dbR1 (by decide) (by decide)
      (by rfl) "p1/photo/a.jpg"⟩

end Website
